import Mathlib

/-!
# Verification of `cursor_cli_manager` against its specification

Shallow embedding of the relevant parts of the `cursor_cli_manager`
repository (Python) into Lean 4, with theorems settling the claims about:

* `github_release.py` — version comparison, checksum parsing, safe tar
  extraction, bundle installation;
* `agent_store.py` — message extraction and preview formatting;
* `tui.py` — layout computation;
* `agent_discovery.py` — workspace discovery ordering;
* `agent_patching.py` — idempotent JS-bundle patching;
* `opening.py` — launch-command preparation.

Python strings are modelled as Lean `String` (code points), Python `int`
as `Int`/`Nat`, Python `None`-or-value as `Option`, Python exceptions as
`Except`.  `str.strip`/`lstrip`/`rstrip` are modelled by
`String.trim`/`trimLeft`/`trimRight` (ASCII whitespace; the claims only
involve ASCII text).
-/

namespace CCM

/-!  ### Python string primitives

Lean's own `String.trim`/`String.splitOn`/… are implemented on byte
positions and do not reduce inside the kernel, so the Python string
operations used by the embedded code are re-implemented here over
`List Char` (structural recursion only; everything below evaluates under
`decide`/`rfl`). -/

/-- `needle` occurs as a contiguous sublist of `hay`. -/
def listContainsSub (needle : List Char) : List Char → Bool
  | [] => needle.isPrefixOf []
  | c :: rest => needle.isPrefixOf (c :: rest) || listContainsSub needle rest

/-- Python `needle in hay` for strings (substring containment). -/
def pyContains (needle hay : String) : Bool :=
  listContainsSub needle.toList hay.toList

/-- Last `n` elements of a list (Python `l[-n:]` for `n > 0`). -/
def takeRight (l : List α) (n : Nat) : List α :=
  l.drop (l.length - n)

/-- Python `s.lstrip()` on char lists. -/
def trimLeftL (l : List Char) : List Char := l.dropWhile Char.isWhitespace

/-- Python `s.rstrip()` on char lists. -/
def trimRightL (l : List Char) : List Char := (trimLeftL l.reverse).reverse

/-- Python `s.strip()` on char lists. -/
def trimL (l : List Char) : List Char := trimRightL (trimLeftL l)

/-- Python `s.strip()`. -/
def pyStrip (s : String) : String := String.mk (trimL s.toList)

/-- Python `s.lstrip()`. -/
def pyLStrip (s : String) : String := String.mk (trimLeftL s.toList)

/-- Python `s.rstrip()`. -/
def pyRStrip (s : String) : String := String.mk (trimRightL s.toList)

/-- Python `s.startswith(p)`. -/
def pyStartsWith (s p : String) : Bool := p.toList.isPrefixOf s.toList

/-- Python `s.endswith(p)`. -/
def pyEndsWith (s p : String) : Bool := p.toList.isSuffixOf s.toList

/-- Python `len(s)` (code points). -/
def pyLen (s : String) : Nat := s.toList.length

/-- Python `s[n:]` for `n ≥ 0` (code points). -/
def pyDrop (s : String) (n : Nat) : String := String.mk (s.toList.drop n)

/-- Python `s[:n]` for `n ≥ 0` (code points). -/
def pyTake (s : String) (n : Nat) : String := String.mk (s.toList.take n)

/-- Split a char list on a separator character (every occurrence splits;
Python `s.split(c)`). -/
def splitOnCharL (c : Char) : List Char → List (List Char)
  | [] => [[]]
  | x :: rest =>
    match splitOnCharL c rest with
    | [] => if x = c then [[], []] else [[x]]
    | h :: t => if x = c then [] :: h :: t else (x :: h) :: t

/-- Python `s.split(".")` etc. -/
def pySplitOnChar (c : Char) (s : String) : List String :=
  (splitOnCharL c s.toList).map String.mk

/-- Python `s.splitlines()` (modelled for newline-separated text). -/
def pySplitLines (s : String) : List String :=
  match s.toList with
  | [] => []
  | l => (splitOnCharL (Char.ofNat 10) l).map String.mk

/-- Whitespace-word splitting, Python `s.split()` with no argument. -/
def wordsAux : List Char → List Char → List (List Char)
  | [], acc => if acc.isEmpty then [] else [acc.reverse]
  | c :: rest, acc =>
    if Char.isWhitespace c then
      if acc.isEmpty then wordsAux rest [] else acc.reverse :: wordsAux rest []
    else wordsAux rest (c :: acc)

/-- Python `s.split()` (split on whitespace runs, no empty tokens). -/
def pyWords (s : String) : List String := (wordsAux s.toList []).map String.mk

/-- Python `s.lower()` (ASCII case folding). -/
def pyLower (s : String) : String := String.mk (s.toList.map Char.toLower)

/-- Python `sep.join(parts)` on char lists. -/
def joinWithL (sep : List Char) : List (List Char) → List Char
  | [] => []
  | [p] => p
  | p :: q :: rest => p ++ sep ++ joinWithL sep (q :: rest)

/-- Python `sep.join(parts)`. -/
def pyJoin (sep : String) (parts : List String) : String :=
  String.mk (joinWithL sep.toList (parts.map String.toList))

/-- Numeric value of a nonempty decimal digit string (Python `int(s)`). -/
def digitsToNat (l : List Char) : Nat :=
  l.foldl (fun n c => 10 * n + (c.toNat - 48)) 0

/-! ## `github_release.py`: version comparison (claim C6)

Embedding of `_parse_version_tuple` and `is_version_newer`
(src/cursor_cli_manager/github_release.py lines 198-237). -/

/-- The leading digit run of a version component
(`for ch in p: if ch.isdigit(): digits += ch else: break`). -/
def takeLeadingDigits (p : String) : String :=
  String.mk (p.toList.takeWhile Char.isDigit)

/-- The component loop of `_parse_version_tuple`: each dot-separated
component contributes its leading digit run; a component with no leading
digit stops the whole parse (`if digits == "": break`). -/
def parseVersionParts : List String → List Nat
  | [] => []
  | p :: rest =>
    let digits := takeLeadingDigits p
    if digits = "" then []
    else digitsToNat digits.toList :: parseVersionParts rest

/-- `_parse_version_tuple`: strip, drop one leading `v` (only when more
follows), split on `.`, collect leading digit runs, `None` when no
component parses. -/
def parseVersionTuple (v : String) : Option (List Nat) :=
  let s := pyStrip v
  if s = "" then none
  else
    let s := if pyStartsWith s "v" && pyLen s > 1 then pyDrop s 1 else s
    let out := parseVersionParts (pySplitOnChar '.' s)
    if out = [] then none else some out

/-- Python tuple comparison `>` on equal-length integer tuples
(lexicographic, strict). -/
def tupleGt : List Nat → List Nat → Bool
  | _, [] => false
  | [], _ :: _ => false
  | a :: as, b :: bs => if b < a then true else if a < b then false else tupleGt as bs

/-- `is_version_newer`: compare parsed tuples after padding the shorter
with trailing zeros; `None` when either side fails to parse. -/
def isVersionNewer (remote localVer : String) : Option Bool :=
  match parseVersionTuple remote, parseVersionTuple localVer with
  | some rv, some lv =>
    let n := max rv.length lv.length
    some (tupleGt (rv ++ List.replicate (n - rv.length) 0)
                  (lv ++ List.replicate (n - lv.length) 0))
  | _, _ => none

/-- Specification-side strict lexicographic "greater than" on equal-length
lists: some position holds a strictly greater entry on the left, all
earlier positions agree. -/
def specStrictGreater (a b : List Nat) : Prop :=
  ∃ k, k < a.length ∧ k < b.length ∧
    (∀ j, j < k → a.getD j 0 = b.getD j 0) ∧
    b.getD k 0 < a.getD k 0

/-! ## `tui.py`: layout computation (claim C3)

Embedding of `compute_layout` (src/cursor_cli_manager/tui.py lines
449-491).  Python `int(usable_h * 0.60)` is modelled as `usableH * 3 / 5`:
for every terminal-sized integer the float product rounds to the exact
rational value, so truncation agrees with integer division. -/

/-- Modelled from the spec: `clamp(v, lo, hi)` from the `formatting`
module, whose source file is not present under `src/` (only its callers
are); spec section 4.4 defines it as the standard clamp. -/
def clamp (v lo hi : Int) : Int := max lo (min hi v)

structure Rect where
  y : Int
  x : Int
  h : Int
  w : Int
deriving DecidableEq

structure Layout where
  workspaces : Rect
  conversations : Rect
  preview : Rect
  mode : String
deriving DecidableEq

/-- `compute_layout(max_y, max_x)`: reserve the last row for the status
bar, then pick a 3-column, 2-column or stacked 1-column arrangement. -/
def computeLayout (maxY maxX : Int) : Layout :=
  let usableH := max 1 (maxY - 1)
  if maxX ≥ 120 ∧ usableH ≥ 10 then
    let leftW := min 40 (max 24 (maxX / 4))
    let midW := min 60 (max 32 (maxX / 3))
    let rightW := max 20 (maxX - leftW - midW)
    { workspaces := ⟨0, 0, usableH, leftW⟩
      conversations := ⟨0, leftW, usableH, midW⟩
      preview := ⟨0, leftW + midW, usableH, rightW⟩
      mode := "3col" }
  else if maxX ≥ 80 ∧ usableH ≥ 10 then
    let leftW := min 40 (max 24 (maxX / 3))
    let rightW := maxX - leftW
    let convH := max 6 (usableH * 3 / 5)
    let prevH := max 3 (usableH - convH)
    { workspaces := ⟨0, 0, usableH, leftW⟩
      conversations := ⟨0, leftW, convH, rightW⟩
      preview := ⟨convH, leftW, prevH, rightW⟩
      mode := "2col" }
  else
    let listH := if usableH ≤ 1 then usableH else clamp (max 1 (usableH * 3 / 5)) 1 (usableH - 1)
    let prevH := if usableH ≤ 1 then 0 else usableH - listH
    { workspaces := ⟨0, 0, listH, maxX⟩
      conversations := ⟨0, 0, listH, maxX⟩
      preview := ⟨listH, 0, prevH, maxX⟩
      mode := "1col" }

/-- A rectangle stays inside the outer bounds `outerH × outerW`. -/
def rectInBounds (r : Rect) (outerH outerW : Int) : Prop :=
  0 ≤ r.y ∧ 0 ≤ r.x ∧ 0 ≤ r.h ∧ 0 ≤ r.w ∧ r.y + r.h ≤ outerH ∧ r.x + r.w ≤ outerW

/-! ## `opening.py`: launch-command preparation (claim C9)

Embedding of `DEFAULT_CURSOR_AGENT_FLAGS`, `_without_force_flag`,
`_prepare_exec_command`, `build_new_command` / `build_resume_command` and
the exec sequence of `exec_new_chat` / `exec_resume_chat`
(src/cursor_cli_manager/opening.py).  The repository's own tests
(src/tests/test_opening.py, `test_exec_new_chat_retries_without_force_when_admin_disabled`)
expect `exec_new_chat` to run the agent once via a helper named
`_run_cursor_agent`, detect an administrative Run-Everything rejection of
`--force` in its output, and retry without the flag; the module under
`src/` has no such helper and performs exactly one `os.execvp`, never
inspecting any agent output. -/

def DEFAULT_CURSOR_AGENT_FLAGS : List String := ["--approve-mcps", "--browser", "--force"]

/-- `_without_force_flag`. -/
def withoutForceFlag (cmd : List String) : List String :=
  cmd.filter (fun c => !(c == "--force" || c == "-f"))

/-- `_prepare_exec_command`: drop `--force` only when the cached
`--force --help` probe (`_supports_force_flag`) fails. -/
def prepareExecCommand (supportsForce : String → Bool) (cmd : List String) : List String :=
  if cmd.contains "--force" || cmd.contains "-f" then
    let agent := cmd.headD ""
    if agent ≠ "" && !supportsForce agent then withoutForceFlag cmd else cmd
  else cmd

/-- `build_new_command` with the executable already resolved. -/
def buildNewCommand (agent : String) (workspacePath : Option String)
    (flags : List String) : List String :=
  [agent] ++ (match workspacePath with | some w => ["--workspace", w] | none => []) ++ flags

/-- `build_resume_command` with the executable already resolved. -/
def buildResumeCommand (agent : String) (workspacePath : Option String)
    (flags : List String) (chatId : String) : List String :=
  buildNewCommand agent workspacePath flags ++ ["--resume", chatId]

/-- The sequence of command lines `exec_new_chat` hands to `os.execvp`:
exactly one, with no retry logic of any kind (the agent's output is never
read, since `execvp` replaces the process). -/
def execNewChatCommands (agent : String) (workspacePath : Option String)
    (flags : List String) (supportsForce : String → Bool) : List (List String) :=
  [prepareExecCommand supportsForce (buildNewCommand agent workspacePath flags)]

/-- Likewise for `exec_resume_chat`. -/
def execResumeChatCommands (agent : String) (workspacePath : Option String)
    (flags : List String) (supportsForce : String → Bool) (chatId : String) :
    List (List String) :=
  [prepareExecCommand supportsForce (buildResumeCommand agent workspacePath flags chatId)]

/-! ## `agent_store.py`: preview formatting (claim C8)

Embedding of `format_messages_preview`
(src/cursor_cli_manager/agent_store.py lines 419-436). -/

/-- The label expression of the loop body:
`"User" if role == "user" else "Assistant" if role == "assistant" else role`.
Note the fallback is the raw role, not capitalized. -/
def fmtLabel (role : String) : String :=
  if role = "user" then "User" else if role = "assistant" then "Assistant" else role

/-- The text expression of the loop body: strip, then truncate to the
first `max_chars_per_message - 1` characters (right-stripped) plus an
ellipsis when positive truncation applies. -/
def fmtText (k : Int) (text : String) : String :=
  let t := pyStrip text
  if k > 0 ∧ (pyLen t : Int) > k then pyRStrip (pyTake t (k - 1).toNat) ++ "…" else t

/-- One message contributes `[label ++ ":", text, ""]` to the parts list. -/
def fmtParts (k : Int) (m : String × String) : List String :=
  [fmtLabel m.1 ++ ":", fmtText k m.2, ""]

/-- `format_messages_preview(messages, max_chars_per_message)`. -/
def formatMessagesPreview (messages : List (String × String)) (k : Int) : String :=
  pyRStrip (pyJoin "\n" (List.flatten (messages.map (fmtParts k))))

/-- Specification-side fallback label per the amended claim: `"User:"`
for user, `"Assistant:"` for assistant, otherwise the raw role. -/
def specFallbackLabel (role : String) : String :=
  match role with
  | "user" => "User"
  | "assistant" => "Assistant"
  | _ => role

/-- Specification-side rendering: one block per message — label line,
newline, rendered text — blocks separated by a blank line, whole output
right-stripped. -/
def formatMessagesPreviewSpec (messages : List (String × String)) (k : Int) : String :=
  pyRStrip (pyJoin "\n\n"
    (messages.map (fun m => specFallbackLabel m.1 ++ ":\n" ++ fmtText k m.2)))

/-! ## `agent_store.py`: message extraction (claims C1 and C10)

Embedding of `_extract_text_from_message`,
`_extract_messages_from_connection` (including its inner `_append`
closure), `extract_recent_messages` and `extract_initial_messages`
(src/cursor_cli_manager/agent_store.py lines 213-416).

The byte-level scanner `_iter_embedded_json_objects` is abstracted: a
blob row is represented by the sequence of JSON objects the scanner
yields from its bytes (in order), plus the result of the cheap byte
filter `b"{" in blob and b"\"role\"" in blob`; the `max_objects=500` cap
of the per-blob scan is applied with `List.take 500`.  JSON values are
modelled by `JVal` (only the shapes the extractor inspects). -/

inductive JVal where
  | str (s : String)
  | arr (elems : List JVal)
  | obj (fields : List (String × JVal))
  | othr

/-- A decoded JSON object: its field list (unique keys — Python dict). -/
abbrev JObj := List (String × JVal)

/-- Python `d.get(k)` on a decoded JSON object. -/
def jget (fields : JObj) (k : String) : Option JVal :=
  (fields.find? (fun f => f.1 = k)).map (·.2)

/-- One element step of the `content` list scan of
`_extract_text_from_message`. -/
def partText (p : JVal) : Option String :=
  match p with
  | .obj fields =>
    match jget fields "text" with
    | some (.str t) => if pyStrip t ≠ "" then some t else nodata fields
    | _ => nodata fields
  | _ => none
where
  nodata (fields : JObj) : Option String :=
    match jget fields "data", jget fields "type" with
    | some (.str d), some (.str ty) =>
      if pyStrip d ≠ "" ∧ (ty = "text" ∨ ty = "output_text" ∨ ty = "input_text")
      then some d else none
    | _, _ => none

/-- `_extract_text_from_message`. -/
def extractTextFromMessage (msg : JObj) : Option String :=
  match jget msg "content" with
  | some (.str c) => if pyStrip c ≠ "" then some c else none
  | some (.arr parts) => parts.findSome? partText
  | _ => none

/-- One blob row: whether it passes the byte filter
`b"{" in blob and b"\"role\"" in blob`, and the JSON objects the
embedded-object scanner yields from it. -/
structure Blob where
  quickFilterPass : Bool
  objs : List JObj

/-- The mutable state of the extraction loop
(`seen`, `out`, `stopped_early`). -/
structure ExtractState where
  seen : List (String × String)
  out : List (String × String)
  stoppedEarly : Bool
deriving DecidableEq

/-- The `_append` closure: global `seen`-set dedup, a (dead) adjacent
duplicate check, and early stop once `max_messages` entries were
collected in `from_start` mode. -/
def appendMsg (fromStart : Bool) (maxMessages : Option Int) (role text : String)
    (st : ExtractState) : ExtractState :=
  if st.stoppedEarly then st
  else if (role, text) ∈ st.seen then st
  else
    let seen := (role, text) :: st.seen
    if st.out ≠ [] ∧ st.out.getLast? = some (role, text) then
      { st with seen := seen }
    else
      let out := st.out ++ [(role, text)]
      let stoppedEarly :=
        fromStart && (match maxMessages with
                      | some m => decide ((out.length : Int) ≥ m)
                      | none => false)
      { seen := seen, out := out, stoppedEarly := stoppedEarly }

/-- The acceptance test of the per-object loop body: role is a string
in `roles`, text is extractable, and the auto-injected `<user_info>`
block is skipped; on success the stripped text is appended. -/
def acceptedOfObj (roles : List String) (obj : JObj) : Option (String × String) :=
  match jget obj "role" with
  | some (.str role) =>
    if role ∈ roles then
      match extractTextFromMessage obj with
      | some text =>
        if role = "user" ∧ pyStartsWith (pyLStrip text) "<user_info>" then none
        else some (role, pyStrip text)
      | none => none
    else none
  | _ => none

/-- The inner `for obj in _iter_embedded_json_objects(blob, 500)` loop. -/
def processObjs (roles : List String) (fromStart : Bool) (maxMessages : Option Int) :
    List JObj → ExtractState → ExtractState
  | [], st => st
  | obj :: rest, st =>
    if st.stoppedEarly then st
    else
      let st' :=
        match acceptedOfObj roles obj with
        | some (role, text) => appendMsg fromStart maxMessages role text st
        | none => st
      processObjs roles fromStart maxMessages rest st'

/-- The outer `for _rowid, data in rows_iter` loop. -/
def processBlobs (roles : List String) (fromStart : Bool) (maxMessages : Option Int) :
    List Blob → ExtractState → ExtractState
  | [], st => st
  | b :: rest, st =>
    if st.stoppedEarly then st
    else
      let st' :=
        if b.quickFilterPass then
          processObjs roles fromStart maxMessages (b.objs.take 500) st
        else st
      processBlobs roles fromStart maxMessages rest st'

/-- `_extract_messages_from_connection`: guard on `max_messages`, select
the blob window (ascending with optional `LIMIT` in `from_start` mode;
most recent `max_blobs` restored to chronological order otherwise), run
the loop, then truncate to the first/last `max_messages` entries. -/
def extractMessagesFromConnection (blobs : List Blob) (maxMessages : Option Int)
    (maxBlobs : Option Int) (roles : List String) (fromStart : Bool) :
    List (String × String) :=
  match maxMessages with
  | some m =>
    if m ≤ 0 then []
    else runSelected blobs maxMessages maxBlobs roles fromStart
  | none => runSelected blobs maxMessages maxBlobs roles fromStart
where
  runSelected (blobs : List Blob) (maxMessages : Option Int) (maxBlobs : Option Int)
      (roles : List String) (fromStart : Bool) : List (String × String) :=
    let selected : Option (List Blob) :=
      match maxBlobs with
      | none => some blobs
      | some k =>
        if k ≤ 0 then none
        else if fromStart then some (blobs.take k.toNat)
        else some (takeRight blobs k.toNat)
    match selected with
    | none => []
    | some sel =>
      let st := processBlobs roles fromStart maxMessages sel ⟨[], [], false⟩
      match maxMessages with
      | none => st.out
      | some m => if fromStart then st.out.take m.toNat else takeRight st.out m.toNat

/-- `extract_recent_messages(store_db, max_messages, max_blobs, roles)`.
`store = none` models a database on which both read-only connection
attempts failed (the wrapper then returns `[]`). -/
def extractRecentMessages (store : Option (List Blob)) (maxMessages : Option Int)
    (maxBlobs : Option Int) (roles : List String) : List (String × String) :=
  match maxMessages with
  | some m =>
    if m ≤ 0 then []
    else
      match store with
      | none => []
      | some blobs => extractMessagesFromConnection blobs maxMessages maxBlobs roles false
  | none =>
    match store with
    | none => []
    | some blobs => extractMessagesFromConnection blobs maxMessages maxBlobs roles false

/-- `extract_initial_messages(store_db, max_messages, max_blobs, roles)`
(here `max_messages` is a plain `int`). -/
def extractInitialMessages (store : Option (List Blob)) (maxMessages : Int)
    (maxBlobs : Option Int) (roles : List String) : List (String × String) :=
  if maxMessages ≤ 0 then []
  else
    match store with
    | none => []
    | some blobs => extractMessagesFromConnection blobs (some maxMessages) maxBlobs roles true

/-- The flat sequence of entries the loop would accept before
deduplication: per blob passing the byte filter, the accepted
`(role, stripped text)` pairs of its first 500 scanned objects. -/
def candidateMessages (roles : List String) (blobs : List Blob) :
    List (String × String) :=
  (blobs.map (fun b =>
    if b.quickFilterPass then (b.objs.take 500).filterMap (acceptedOfObj roles)
    else [])).flatten

/-- Folding `_append` over a flat list of accepted entries. -/
def foldAppend (fromStart : Bool) (maxMessages : Option Int)
    (msgs : List (String × String)) (st : ExtractState) : ExtractState :=
  msgs.foldl (fun st m => appendMsg fromStart maxMessages m.1 m.2 st) st

/-! ## `github_release.py`: safe tar extraction (claim C7)

Embedding of `_safe_extract_tar_gz`
(src/cursor_cli_manager/github_release.py lines 515-539).  A tar member
is modelled by its name, whether it is a symlink/hardlink, and its link
target; `Path(name).parts` is modelled by splitting on `/` and dropping
empty and `.` components (pathlib's normalization). -/

structure TarMember where
  name : String
  isLink : Bool
  linkname : String
deriving DecidableEq

/-- `Path(s).parts`, as far as the `".."` membership test is concerned. -/
def pyPathParts (s : String) : List String :=
  ((splitOnCharL '/' s.toList).map String.mk).filter (fun c => c ≠ "" ∧ c ≠ ".")

/-- The per-member validation of the extraction loop. -/
def checkMember (m : TarMember) : Except String Unit :=
  if pyStartsWith m.name "/" ∨ pyStartsWith m.name "\\" then
    Except.error ("unsafe tar member path: " ++ m.name)
  else if (pyPathParts m.name).contains ".." then
    Except.error ("unsafe tar member path: " ++ m.name)
  else if m.isLink ∧
      (pyStartsWith m.linkname "/" ∨ pyStartsWith m.linkname "\\" ∨
        (pyPathParts m.linkname).contains "..") then
    Except.error ("unsafe tar link target: " ++ m.name ++ " -> " ++ m.linkname)
  else Except.ok ()

/-- The validation loop over `tf.getmembers()` — every member is checked
before anything is extracted. -/
def validateMembers : List TarMember → Except String Unit
  | [] => Except.ok ()
  | m :: rest =>
    match checkMember m with
    | Except.error e => Except.error e
    | Except.ok _ => validateMembers rest

/-- `_safe_extract_tar_gz` over the archive's member list: returns the
names written to the destination directory (by `tf.extractall`, which
runs only after the loop validated every member) together with the
outcome. -/
def safeExtractTarGz (members : List TarMember) : List String × Except String Unit :=
  match validateMembers members with
  | Except.error e => ([], Except.error e)
  | Except.ok _ => (members.map (·.name), Except.ok ())

/-- A member the claim calls unsafe. -/
def unsafeMember (m : TarMember) : Bool :=
  pyStartsWith m.name "/" || pyStartsWith m.name "\\" ||
  (pyPathParts m.name).contains ".." ||
  (m.isLink && (pyStartsWith m.linkname "/" || pyStartsWith m.linkname "\\" ||
    (pyPathParts m.linkname).contains ".."))

/-! ## `github_release.py`: checksum gate and bundle install (claim C2)

Embedding of `parse_checksums_txt` (lines 439-455) and
`download_and_install_release_bundle` (lines 606-714) of
src/cursor_cli_manager/github_release.py.

Filesystem paths are modelled as component lists (`PathM`);
`_resolve_for_compare` is modelled as the identity (no symlink
indirection in the model), so `_is_within` becomes a component-prefix
test.  The downloads are inputs (`assetData`, `checksumsFile`; `none`
models the swallowed checksum-fetch failure), SHA-256 is an abstract
function of the downloaded bytes, and every filesystem mutation the
function performs is recorded as an `FsEvent` in execution order
(repeated `mkdir(exist_ok=True)` calls on the same directory are
coalesced; the write-to-temporary-name-then-rename of `_atomic_symlink`
is one `symlink` event). -/

/-- A filesystem path as its list of components. -/
abbrev PathM := List String

/-- `_is_within(child, parent)` after best-effort resolution. -/
def isWithin (child parent : PathM) : Bool := parent.isPrefixOf child

/-- Association-list update with Python `dict` semantics
(`out[name] = sha`). -/
def assocSet (l : List (String × String)) (k v : String) : List (String × String) :=
  if l.any (fun p => p.1 = k) then l.map (fun p => if p.1 = k then (k, v) else p)
  else l ++ [(k, v)]

/-- `d.get(k)` on the association list. -/
def lookupStr (l : List (String × String)) (k : String) : Option String :=
  (l.find? (fun p => p.1 = k)).map (·.2)

/-- `parse_checksums_txt`: `"sha  filename"` lines, `#` comments and
blanks skipped, digest lowercased and required to span at least 32
characters. -/
def parseChecksumsTxt (txt : String) : List (String × String) :=
  (pySplitLines txt).foldl (fun out ln =>
    let s := pyStrip ln
    if s = "" ∨ pyStartsWith s "#" then out
    else
      let parts := pyWords s
      if parts.length < 2 then out
      else
        let sha := pyLower (pyStrip (parts.headD ""))
        let name := pyStrip (parts.getLast?.getD "")
        if 32 ≤ pyLen sha ∧ name ≠ "" then assocSet out name sha else out) []

/-- One recorded filesystem mutation of the bundle installer. -/
inductive FsEvent where
  | mkdirInstallRoot
  | lockAcquired
  | mkdirVersionsDir
  | makeTempDir
  | writeMember (name : String)
  | chmodExecutable
  | removeOldVersionDir
  | renameTmpToVersionDir
  | removeTempDir
  | mkdirBinDir
  | symlink (link : PathM) (target : PathM)
  | unlinkAlias
  | symlinkRel (link : PathM) (target : String)
  | lockReleased
deriving DecidableEq

/-- The static arguments of `download_and_install_release_bundle`. -/
structure InstallArgs where
  tag : String
  assetName : String
  installRoot : PathM
  binDir : PathM
  verifyChecksums : Bool

/-- The world the installer interacts with: download results, the hash
function, lock availability, archive contents, pre-existing state. -/
structure InstallWorld where
  assetData : List Nat
  checksumsFile : Option String
  sha256 : List Nat → String
  lockFree : Bool
  archiveMembers : List TarMember
  versionDirExists : Bool
  aliasExists : Bool

/-- The body of the `with _install_lock(...)` block. -/
def installLocked (a : InstallArgs) (w : InstallWorld) :
    List FsEvent × Except String PathM :=
  let pre := [FsEvent.mkdirInstallRoot, FsEvent.lockAcquired]
  if isWithin a.binDir (a.installRoot ++ ["current"]) ∨
      isWithin a.binDir (a.installRoot ++ ["versions"]) then
    (pre ++ [FsEvent.lockReleased],
     Except.error "refusing to install into bin dir inside ccm bundle root")
  else
    let ev1 := pre ++ [FsEvent.mkdirVersionsDir, FsEvent.makeTempDir]
    match safeExtractTarGz w.archiveMembers with
    | (_, Except.error e) =>
      (ev1 ++ [FsEvent.removeTempDir, FsEvent.lockReleased], Except.error e)
    | (written, Except.ok _) =>
      let ev2 := ev1 ++ written.map FsEvent.writeMember
      if ¬ w.archiveMembers.any (fun mem => mem.name = "ccm/ccm") then
        (ev2 ++ [FsEvent.removeTempDir, FsEvent.lockReleased],
         Except.error "invalid bundle: missing ccm/ccm")
      else
        let ev3 := ev2 ++ [FsEvent.chmodExecutable]
          ++ (if w.versionDirExists then [FsEvent.removeOldVersionDir] else [])
          ++ [FsEvent.renameTmpToVersionDir]
        let versionDir := a.installRoot ++ ["versions", a.tag]
        let current := a.installRoot ++ ["current"]
        if versionDir = current then
          (ev3 ++ [FsEvent.lockReleased],
           Except.error "refusing to create self-referential symlink")
        else
          let ev4 := ev3 ++ [FsEvent.symlink current versionDir, FsEvent.mkdirBinDir]
          let targetExe := current ++ ["ccm", "ccm"]
          if a.binDir ++ ["ccm"] = targetExe then
            (ev4 ++ [FsEvent.lockReleased],
             Except.error "refusing to create self-referential symlink")
          else
            let ev5 := ev4 ++ [FsEvent.symlink (a.binDir ++ ["ccm"]) targetExe]
            let ev6 := ev5 ++ (if w.aliasExists then [FsEvent.unlinkAlias] else [])
              ++ [FsEvent.symlinkRel (a.binDir ++ ["cursor-cli-manager"]) "ccm"]
            (ev6 ++ [FsEvent.lockReleased], Except.ok targetExe)

/-- The checksum dictionary actually obtained
(`checksums = {}` on skipped verification or swallowed fetch failure). -/
def fetchedChecksums (verify : Bool) (checksumsFile : Option String) :
    List (String × String) :=
  if verify then
    match checksumsFile with
    | some txt => parseChecksumsTxt txt
    | none => []
  else []

/-- The checksum gate: compare the SHA-256 of the downloaded bytes with
the expected digest when one is present, producing the raised message. -/
def checksumGateError (verify : Bool) (checksums : List (String × String))
    (assetName actual : String) : Option String :=
  if verify ∧ checksums ≠ [] then
    match lookupStr checksums assetName with
    | some expected =>
      if expected ≠ "" then
        if pyLower actual ≠ pyLower expected then
          some ("checksum mismatch for " ++ assetName ++ ": expected "
            ++ expected ++ ", got " ++ actual)
        else none
      else none
    | none => none
  else none

/-- `download_and_install_release_bundle`: suffix check, download,
best-effort checksums, checksum gate, then the locked install. -/
def downloadAndInstallReleaseBundle (a : InstallArgs) (w : InstallWorld) :
    List FsEvent × Except String PathM :=
  if ¬ pyEndsWith a.assetName ".tar.gz" then
    ([], Except.error ("unsupported bundle asset: " ++ a.assetName ++ " (expected .tar.gz)"))
  else
    match checksumGateError a.verifyChecksums
        (fetchedChecksums a.verifyChecksums w.checksumsFile)
        a.assetName (w.sha256 w.assetData) with
    | some e => ([], Except.error e)
    | none =>
      if ¬ w.lockFree then
        ([FsEvent.mkdirInstallRoot], Except.error "ccm install/upgrade already in progress")
      else installLocked a w

/-- One event's effect on the "last symlink for `p`" accumulator. -/
def dtStep (p : PathM) (acc : Option (PathM ⊕ String)) (e : FsEvent) :
    Option (PathM ⊕ String) :=
  match e with
  | FsEvent.symlink l t => if l = p then some (Sum.inl t) else acc
  | FsEvent.symlinkRel l t => if l = p then some (Sum.inr t) else acc
  | _ => acc

/-- The effective target of the last symlink event for `p`, if any. -/
def directTarget (evs : List FsEvent) (p : PathM) : Option (PathM ⊕ String) :=
  evs.foldl (dtStep p) none

/-- Resolve a path through the recorded symlinks: an absolute link is
followed directly; a relative link is resolved against its own
directory and followed one more level. -/
def resolveToPath (evs : List FsEvent) (p : PathM) : Option PathM :=
  match directTarget evs p with
  | some (Sum.inl t) => some t
  | some (Sum.inr rel) =>
    match directTarget evs (p.dropLast ++ [rel]) with
    | some (Sum.inl t) => some t
    | _ => none
  | none => none

/-! ## `agent_discovery.py`: workspace discovery ordering (claim C4)

Embedding of the hash-to-path reconciliation of
`discover_agent_workspaces`
(src/cursor_cli_manager/agent_discovery.py lines 72-138).

Inputs are the observable environment: the chats-directory entries, the
persisted workspace map (as loaded), a directory-existence predicate,
the candidate paths, the hash-candidate function of `agent_paths`
(abstract — MD5 itself plays no role in the ordering logic), and the
bucket mtimes.  The Python `set` iteration order of the un-ordered
remainder is modelled by the chats-directory entry order (it only
affects tie-breaking among equal mtimes, which neither the claim nor the
spec pins down). -/

/-- A hexadecimal digit (Python `string.hexdigits` membership). -/
def isHexDigitChar (c : Char) : Bool :=
  c.isDigit || ('a' ≤ c && c ≤ 'f') || ('A' ≤ c && c ≤ 'F')

/-- Modelled from the spec: `is_md5_hex` from the `agent_paths` module,
whose source file is not present under `src/` (only its callers are);
spec section 4.1 defines it as: true iff the string is exactly 32
characters, all hexadecimal. -/
def isMd5Hex (s : String) : Bool :=
  pyLen s = 32 && s.toList.all isHexDigitChar

structure DiscoveryInput where
  chatsDirEntries : List String
  persisted : List (String × String)
  pathIsDir : String → Bool
  candidates : List String
  hashCandidates : String → List String
  bucketExists : String → Bool
  bucketMtime : String → Int

/-- `hash_set`: the chats-directory subdirectories with 32-hex names. -/
def knownHashes (inp : DiscoveryInput) : List String :=
  inp.chatsDirEntries.filter isMd5Hex

/-- `persisted_paths`: persisted entries restricted to known buckets
whose recorded path exists and is a directory. -/
def validPersisted (inp : DiscoveryInput) : List (String × String) :=
  inp.persisted.filter (fun hp => decide (hp.1 ∈ knownHashes inp) && inp.pathIsDir hp.2)

/-- `hash_to_path` after the "first apply persisted mappings" loop. -/
def table0 (inp : DiscoveryInput) : List (String × String) :=
  (validPersisted inp).foldl (fun t hp => assocSet t hp.1 hp.2) []

/-- The body of the candidate loop for one `(candidate path, hash)`
pair: map the hash if unmapped, record first-seen ordering. -/
def candStep (inp : DiscoveryInput)
    (acc : List (String × String) × List String × List String)
    (ph : String × String) :
    List (String × String) × List String × List String :=
  let table := acc.1
  let ordered := acc.2.1
  let seen := acc.2.2
  let table :=
    if ph.2 ∈ knownHashes inp ∧ lookupStr table ph.2 = none then
      assocSet table ph.2 ph.1
    else table
  if ph.2 ∈ knownHashes inp ∧ ph.2 ∉ seen then
    (table, ordered ++ [ph.2], ph.2 :: seen)
  else (table, ordered, seen)

/-- The nested `for p in candidates: for h in workspace_hash_candidates(p)`
loops. -/
def candFold (inp : DiscoveryInput) :
    List (String × String) × List String × List String :=
  inp.candidates.foldl
    (fun acc p => ((inp.hashCandidates p).map (fun h => (p, h))).foldl (candStep inp) acc)
    (table0 inp, [], [])

/-- The final `hash_to_path` table. -/
def discoveryTable (inp : DiscoveryInput) : List (String × String) := (candFold inp).1

/-- `ordered_hashes` before the remainder is appended. -/
def orderedFromCandidates (inp : DiscoveryInput) : List String := (candFold inp).2.1

/-- The `seen` set. -/
def discoverySeen (inp : DiscoveryInput) : List String := (candFold inp).2.2

/-- The sort key of the remainder: bucket mtime, or `0` for a missing
bucket. -/
def discoveryKey (inp : DiscoveryInput) (h : String) : Int :=
  if inp.bucketExists h then inp.bucketMtime h else 0

/-- `reverse=True` mtime comparison. -/
def discoveryLe (inp : DiscoveryInput) (h1 h2 : String) : Bool :=
  decide (discoveryKey inp h2 ≤ discoveryKey inp h1)

/-- `remaining`, sorted most-recently-touched first (stable sort). -/
def discoveryRemainingSorted (inp : DiscoveryInput) : List String :=
  ((knownHashes inp).filter (fun h => decide (h ∉ discoverySeen inp))).mergeSort
    (discoveryLe inp)

/-- The ordered `(cwd_hash, workspace_path)` pairs
`discover_agent_workspaces` builds its `AgentWorkspace` list from. -/
def discoverAgentWorkspacesCore (inp : DiscoveryInput) :
    List (String × Option String) :=
  (orderedFromCandidates inp ++ discoveryRemainingSorted inp).map
    (fun h => (h, lookupStr (discoveryTable inp) h))

/-- Specification-side first-seen dedup: keep each element's first
occurrence, in order. -/
def specFirstSeen : List String → List String
  | [] => []
  | a :: l => a :: specFirstSeen (l.filter (fun x => x ≠ a))
termination_by l => l.length
decreasing_by
  simp only [List.length_cons]
  exact Nat.lt_succ_of_le (List.length_filter_le _ _)

/-- First-seen dedup with an explicit already-seen accumulator (the
shape of the loop's `seen` set). -/
def specFirstSeenAux (seen : List String) : List String → List String
  | [] => []
  | a :: l =>
    if a ∈ seen then specFirstSeenAux seen l
    else a :: specFirstSeenAux (a :: seen) l

/-- The flat pair list the nested candidate loops traverse. -/
def flatPairs (inp : DiscoveryInput) : List (String × String) :=
  inp.candidates.flatMap (fun p => (inp.hashCandidates p).map (fun h => (p, h)))

/-- A concrete discovery scenario: three known hash buckets, one persisted
mapping for the first, two candidate paths covering the first two hashes
(the second hash twice), the third hash only reachable via the remainder. -/
def discoveryExample : DiscoveryInput :=
  ⟨["aaaaaaaaaaaaaaaaaaaaaaaaaaaaaaaa",
    "bbbbbbbbbbbbbbbbbbbbbbbbbbbbbbbb",
    "cccccccccccccccccccccccccccccccc"],
   [("aaaaaaaaaaaaaaaaaaaaaaaaaaaaaaaa", "/persisted/ws1")],
   fun _ => true,
   ["/cand/one", "/cand/two"],
   fun p =>
     if p = "/cand/one" then
       ["aaaaaaaaaaaaaaaaaaaaaaaaaaaaaaaa", "bbbbbbbbbbbbbbbbbbbbbbbbbbbbbbbb"]
     else ["bbbbbbbbbbbbbbbbbbbbbbbbbbbbbbbb"],
   fun h => h != "cccccccccccccccccccccccccccccccc",
   fun _ => 7⟩

/-! ## `agent_patching.py`: idempotent model-enumeration patch (claim C5)

Embedding of `_extract_call_arg`, `_patch_fetch_usable_models_block` and
`patch_cursor_agent_models` (src/cursor_cli_manager/agent_patching.py
lines 147-347).  The filesystem is modelled as the versions directory:
a list of `(version dir name, files)` pairs, each file a `(name,
content)` pair; reads and writes always succeed (the source's
best-effort `except` paths cover OS failures only, so the report's
`errors` list is always empty here and is omitted).  The block regular
expression `_RE_FETCH_USABLE_BLOCK` is an abstract parameter `matcher`
returning the text split as `(prefix, matched block, suffix)`, so that
`txt[:m.start()] + new_block + txt[m.end():]` is `pre ++ newBlock ++
post`. -/

/-- `_PATCH_MARKER`. -/
def patchMarker : String := "CCM_PATCH_AVAILABLE_MODELS_NORMALIZED"

/-- Python regex `\s` on ASCII: space, tab, newline, carriage return,
form feed, vertical tab. -/
def isPySpace (c : Char) : Bool :=
  c = ' ' || c = Char.ofNat 9 || c = Char.ofNat 10 || c = Char.ofNat 13
    || c = Char.ofNat 12 || c = Char.ofNat 11

/-- The alternation `(?:getUsableModels|getAvailableModels|availableModels)`
at the head of `l` (the branches are pairwise prefix-incompatible, so
regex alternation order does not matter); returns the remainder. -/
def matchNameAfterDot (l : List Char) : Option (List Char) :=
  if "getUsableModels".toList.isPrefixOf l then some (l.drop 15)
  else if "getAvailableModels".toList.isPrefixOf l then some (l.drop 18)
  else if "availableModels".toList.isPrefixOf l then some (l.drop 15)
  else none

/-- `\s*\(` at the head of `l`; returns the remainder after `(`. -/
def skipSpacesThenLParen (l : List Char) : Option (List Char) :=
  match l.dropWhile isPySpace with
  | '(' :: rest => some rest
  | _ => none

/-- The full pattern
`aiServerClient\.(?:getUsableModels|getAvailableModels|availableModels)\s*\(`
anchored at the head of `l`; returns the remainder after `(`
(the regex match's `m.end()`). -/
def tryCallAt (l : List Char) : Option (List Char) :=
  if "aiServerClient.".toList.isPrefixOf l then
    match matchNameAfterDot (l.drop 15) with
    | some r => skipSpacesThenLParen r
    | none => none
  else none

/-- `re.search` for the call pattern: try every position left to right
(leftmost match). -/
def findCallTail : List Char → Option (List Char)
  | [] => tryCallAt []
  | c :: t =>
    match tryCallAt (c :: t) with
    | some r => some r
    | none => findCallTail t

/-- The argument scanner of `_extract_call_arg`: walk the characters
after the opening parenthesis tracking escape state, single, double or
backtick quoted strings and parenthesis depth; when an unquoted `)`
closes the call, return the characters accumulated before it. -/
def scanArg : List Char → Nat → Bool → Bool → Bool → Bool → List Char →
    Option (List Char)
  | [], _, _, _, _, _, _ => none
  | c :: rest, depth, esc, inS, inD, inB, acc =>
    if esc then scanArg rest depth false inS inD inB (acc ++ [c])
    else if c = '\\' then scanArg rest depth true inS inD inB (acc ++ [c])
    else if inS then scanArg rest depth false (c != Char.ofNat 39) inD inB (acc ++ [c])
    else if inD then scanArg rest depth false inS (c != '"') inB (acc ++ [c])
    else if inB then scanArg rest depth false inS inD (c != Char.ofNat 96) (acc ++ [c])
    else if c = Char.ofNat 39 then scanArg rest depth false true inD inB (acc ++ [c])
    else if c = '"' then scanArg rest depth false inS true inB (acc ++ [c])
    else if c = Char.ofNat 96 then scanArg rest depth false inS inD true (acc ++ [c])
    else if c = '(' then scanArg rest (depth + 1) false inS inD inB (acc ++ [c])
    else if c = ')' then
      if depth = 1 then some acc
      else scanArg rest (depth - 1) false inS inD inB (acc ++ [c])
    else scanArg rest depth false inS inD inB (acc ++ [c])

/-- `_extract_call_arg`: find the first `aiServerClient.*Models(` call,
scan its first argument, strip it, and return it when nonempty
(`return arg or None`). -/
def extractCallArg (block : String) : Option String :=
  match findCallTail block.toList with
  | none => none
  | some rest =>
    match scanArg rest 1 false false false false [] with
    | none => none
    | some argChars =>
      let a := trimL argChars
      if a.isEmpty then none else some (String.mk a)

/-! The replacement block built by `_patch_fetch_usable_models_block`,
split at its three `{arg}` interpolation points. -/

def tmplA : String :=
  "function fetchUsableModels(aiServerClient) \x7b\n    return __awaiter(this, void 0, void 0, function* () \x7b\n        const _ccm_r = yield (aiServerClient.availableModels\n            ? aiServerClient.availableModels("

def tmplB : String :=
  ")\n            : aiServerClient.getAvailableModels\n                ? aiServerClient.getAvailableModels("

def tmplC : String :=
  ")\n                : aiServerClient.getUsableModels("

def tmplD : String :=
  "));\n        const _ccm_models = (_ccm_r && (_ccm_r.models || _ccm_r.availableModels || _ccm_r.usableModels)) || [];\n        const _ccm_normalized = _ccm_models\n            .map(m => \x7b\n            if (!m)\n                return null;\n            // Normalize shapes across GetUsableModels vs AvailableModels.\n            const modelId = (m.modelId || m.name || m.serverModelName || m.server_model_name || \"\");\n            const displayModelId = (m.displayModelId || m.inputboxShortModelName || m.inputbox_short_model_name || m.clientDisplayName || m.client_display_name || m.name || modelId || \"\");\n            const displayName = (m.displayName || m.display_name || m.clientDisplayName || m.client_display_name || m.name || displayModelId || modelId || \"\");\n            const displayNameShort = (m.displayNameShort || m.display_name_short || m.inputboxShortModelName || m.inputbox_short_model_name);\n            if (!modelId || !displayModelId)\n                return null;\n            // Preserve original fields while ensuring required ones are present.\n            return Object.assign(Object.assign(\x7b\x7d, m), \x7b modelId, displayModelId, displayName, displayNameShort \x7d);\n        \x7d)\n            .filter(Boolean);\n        const models = _ccm_normalized.filter(m => !!(m && (m.supportsAgent === true || m.supports_agent === true)));\n        return models.length > 0 ? models : undefined;\n    \x7d);\n\x7d\n/* CCM_PATCH_AVAILABLE_MODELS_NORMALIZED */\n"

/-- The f-string result of `_patch_fetch_usable_models_block` for call
argument `arg` (the marker comment is the last line of `tmplD`). -/
def patchedBlockTemplate (arg : String) : String :=
  tmplA ++ arg ++ tmplB ++ arg ++ tmplC ++ arg ++ tmplD

/-- `_patch_fetch_usable_models_block`: `None` for already-marked blocks,
blocks mentioning none of the three model calls, or blocks whose call
argument cannot be extracted; otherwise the replacement block. -/
def patchFetchUsableModelsBlock (block : String) : Option String :=
  if pyContains patchMarker block then none
  else if !(pyContains "getUsableModels" block) && !(pyContains "availableModels" block)
      && !(pyContains "getAvailableModels" block) then none
  else
    match extractCallArg block with
    | none => none
    | some arg => some (patchedBlockTemplate arg)

/-- A version directory's files: `(file name, content)` pairs. -/
abbrev VDir := List (String × String)

/-- `PatchReport` (the `errors` list is always empty in this model and
is omitted; `versions_dir` is the state threaded alongside). -/
structure PatchReport where
  scannedFiles : Nat
  patchedFiles : List (String × String)
  skippedAlreadyPatched : Nat
  skippedNotApplicable : Nat
deriving DecidableEq

/-- The body of the inner `for p in js_files` loop of
`patch_cursor_agent_models`, for one file `fname` of version dir
`vname`: read, skip already-marked files, search the block regex, build
the replacement, and (unless dry-run) write the one-time backup and the
patched text. -/
def patchFileStep (matcher : String → Option (String × String × String))
    (dryRun : Bool) (vname : String)
    (acc : PatchReport × VDir) (fname : String) : PatchReport × VDir :=
  let rep := acc.1
  let dir := acc.2
  let txt := (lookupStr dir fname).getD ""
  if pyContains patchMarker txt then
    (⟨rep.scannedFiles + 1, rep.patchedFiles, rep.skippedAlreadyPatched + 1,
      rep.skippedNotApplicable⟩, dir)
  else
    match matcher txt with
    | none =>
      (⟨rep.scannedFiles + 1, rep.patchedFiles, rep.skippedAlreadyPatched,
        rep.skippedNotApplicable + 1⟩, dir)
    | some (pre, blk, post) =>
      match patchFetchUsableModelsBlock blk with
      | none =>
        (⟨rep.scannedFiles + 1, rep.patchedFiles, rep.skippedAlreadyPatched,
          rep.skippedNotApplicable + 1⟩, dir)
      | some newBlock =>
        let newTxt := pre ++ newBlock ++ post
        if newTxt = txt then
          (⟨rep.scannedFiles + 1, rep.patchedFiles, rep.skippedAlreadyPatched,
            rep.skippedNotApplicable + 1⟩, dir)
        else if dryRun then
          (⟨rep.scannedFiles + 1, rep.patchedFiles ++ [(vname, fname)],
            rep.skippedAlreadyPatched, rep.skippedNotApplicable⟩, dir)
        else
          let bakName := fname ++ ".ccm.bak"
          let dir1 := if (lookupStr dir bakName).isSome then dir
                      else assocSet dir bakName txt
          let dir2 := assocSet dir1 fname newTxt
          (⟨rep.scannedFiles + 1, rep.patchedFiles ++ [(vname, fname)],
            rep.skippedAlreadyPatched, rep.skippedNotApplicable⟩, dir2)

/-- `sorted(vdir.glob("*.index.js"), key=lambda p: p.name)`. -/
def dirJsFiles (d : VDir) : List String :=
  ((d.map Prod.fst).filter (fun n => pyEndsWith n ".index.js")).mergeSort
    (fun a b => decide (a ≤ b))

/-- The body of the outer `for vdir in sorted(version_dirs, ...)` loop:
process one version directory's js files. -/
def patchVersionDir (matcher : String → Option (String × String × String))
    (dryRun : Bool) (rep : PatchReport) (vd : String × VDir) :
    PatchReport × (String × VDir) :=
  let res := (dirJsFiles vd.2).foldl (patchFileStep matcher dryRun vd.1) (rep, vd.2)
  (res.1, (vd.1, res.2))

/-- `patch_cursor_agent_models`: version dirs sorted by name, each
processed in turn against the shared report. -/
def patchCursorAgentModels (matcher : String → Option (String × String × String))
    (dryRun : Bool) (fs : List (String × VDir)) :
    PatchReport × List (String × VDir) :=
  (fs.mergeSort (fun a b => decide (a.1 ≤ b.1))).foldl
    (fun acc vd =>
      let r := patchVersionDir matcher dryRun acc.1 vd
      (r.1, acc.2 ++ [r.2]))
    (⟨0, [], 0, 0⟩, [])

/-- The content the loop reads for file `f` of directory `d`. -/
def fileOld (d : VDir) (f : String) : String := (lookupStr d f).getD ""

/-- Pure per-file outcome against a fixed directory snapshot: the new
text when the file would be patched, `none` when it would be skipped. -/
def fileNewTxt (matcher : String → Option (String × String × String))
    (d : VDir) (f : String) : Option String :=
  let txt := fileOld d f
  if pyContains patchMarker txt then none
  else
    match matcher txt with
    | none => none
    | some (pre, blk, post) =>
      match patchFetchUsableModelsBlock blk with
      | none => none
      | some nb => if pre ++ nb ++ post = txt then none else some (pre ++ nb ++ post)

/-- Component-wise report accumulation. -/
def addRep (a b : PatchReport) : PatchReport :=
  ⟨a.scannedFiles + b.scannedFiles, a.patchedFiles ++ b.patchedFiles,
   a.skippedAlreadyPatched + b.skippedAlreadyPatched,
   a.skippedNotApplicable + b.skippedNotApplicable⟩

/-- The fresh report. -/
def zeroRep : PatchReport := ⟨0, [], 0, 0⟩

/-- One version dir's report contribution, from a fresh report. -/
def dirRunRep (matcher : String → Option (String × String × String))
    (dryRun : Bool) (vd : String × VDir) : PatchReport :=
  ((dirJsFiles vd.2).foldl (patchFileStep matcher dryRun vd.1) (zeroRep, vd.2)).1

/-- One version dir's resulting file list. -/
def dirRunOut (matcher : String → Option (String × String × String))
    (dryRun : Bool) (vd : String × VDir) : VDir :=
  ((dirJsFiles vd.2).foldl (patchFileStep matcher dryRun vd.1) (zeroRep, vd.2)).2

/-- A minimal patchable bundle block (one model call with argument
`req`). -/
def sampleBlock : String :=
  "function fetchUsableModels(aiServerClient) \x7b return aiServerClient.getUsableModels(req); \x7d"

/-- A matcher recognising exactly `sampleBlock` as a whole-text match
(empty prefix and suffix), mirroring `_RE_FETCH_USABLE_BLOCK` finding
the block. -/
def sampleMatcher : String → Option (String × String × String) :=
  fun t => if t = sampleBlock then some ("", sampleBlock, "") else none

/-- One version dir holding one patchable bundle file. -/
def sampleFs : List (String × VDir) :=
  [("1.0", [("app.index.js", sampleBlock)])]

/-- The file tree after the first run: patched text plus backup. -/
def sampleFs1 : List (String × VDir) :=
  [("1.0", [("app.index.js", patchedBlockTemplate "req"),
            ("app.index.js.ccm.bak", sampleBlock)])]

/-! ## Theorems -/

theorem tupleGt_iff_specStrictGreater (a b : List Nat) (h : a.length = b.length) :
    tupleGt a b = true ↔ specStrictGreater a b := by
  induction a generalizing b with
  | nil =>
    cases b with
    | nil =>
      simp [tupleGt, specStrictGreater]
    | cons y ys => simp at h
  | cons x xs ih =>
    cases b with
    | nil => simp at h
    | cons y ys =>
      simp only [List.length_cons, Nat.succ.injEq] at h
      constructor
      · intro hgt
        simp only [tupleGt] at hgt
        by_cases hyx : y < x
        · exact ⟨0, by simp, by simp, by omega, by simpa using hyx⟩
        · simp only [if_neg hyx] at hgt
          by_cases hxy : x < y
          · simp [if_pos hxy] at hgt
          · simp only [if_neg hxy] at hgt
            obtain ⟨k, hk1, hk2, hpre, hlt⟩ := (ih ys h).mp hgt
            refine ⟨k + 1, by simpa using hk1, by simpa using hk2, ?_, by simpa using hlt⟩
            intro j hj
            cases j with
            | zero => simp only [List.getD_cons_zero]; omega
            | succ j => simpa using hpre j (by omega)
      · rintro ⟨k, hk1, hk2, hpre, hlt⟩
        simp only [tupleGt]
        cases k with
        | zero =>
          simp only [List.getD_cons_zero] at hlt
          simp [hlt]
        | succ k =>
          have h0 := hpre 0 (by omega)
          simp only [List.getD_cons_zero] at h0
          subst h0
          have hyx : ¬ x < x := by omega
          simp only [if_neg hyx]
          refine (ih ys h).mpr ⟨k, by simpa using hk1, by simpa using hk2, ?_, by simpa using hlt⟩
          intro j hj
          simpa using hpre (j + 1) (by omega)

/-- C6: `is_version_newer` parses each argument into its leading-digit-run
components, pads with trailing zeros and compares strictly; it returns
`none` exactly when either argument yields no components; and the three
concrete examples from the specification hold. -/
theorem claim_C6_version_comparison :
    isVersionNewer "0.5.6" "0.5.5" = some true ∧
    isVersionNewer "v0.5.6" "0.5.6" = some false ∧
    isVersionNewer "not-a-version" "0.5.6" = none ∧
    (∀ r l, isVersionNewer r l = none ↔
      parseVersionTuple r = none ∨ parseVersionTuple l = none) ∧
    (∀ r l rv lv, parseVersionTuple r = some rv → parseVersionTuple l = some lv →
      (isVersionNewer r l = some true ↔
        specStrictGreater
          (rv ++ List.replicate (max rv.length lv.length - rv.length) 0)
          (lv ++ List.replicate (max rv.length lv.length - lv.length) 0))) := by
  refine ⟨by decide, by decide, by decide, ?_, ?_⟩
  · intro r l
    unfold isVersionNewer
    cases hr : parseVersionTuple r <;> cases hl : parseVersionTuple l <;> simp
  · intro r l rv lv hr hl
    unfold isVersionNewer
    rw [hr, hl]
    simp only [Option.some.injEq]
    have hlen : (rv ++ List.replicate (max rv.length lv.length - rv.length) 0).length
        = (lv ++ List.replicate (max rv.length lv.length - lv.length) 0).length := by
      simp only [List.length_append, List.length_replicate]
      omega
    constructor
    · intro hb
      exact (tupleGt_iff_specStrictGreater _ _ hlen).mp hb
    · intro hs
      exact (tupleGt_iff_specStrictGreater _ _ hlen).mpr hs

/-- Witness for C6: the general clauses applied at concrete inputs. -/
theorem claim_C6_witness :
    isVersionNewer "abc" "1.0" = none ∧ isVersionNewer "1.10" "1.9.7" = some true := by
  constructor
  · exact (claim_C6_version_comparison.2.2.2.1 "abc" "1.0").mpr (Or.inl (by decide))
  · have h := claim_C6_version_comparison.2.2.2.2 "1.10" "1.9.7" [1, 10] [1, 9, 7]
      (by decide) (by decide)
    exact h.mpr ⟨1, by decide, by decide, by decide, by decide⟩

/-- C3: for every terminal size with `max_y ≥ 1` and `max_x ≥ 1`, the
computed rectangles stay inside the usable bounds and tile exactly
according to the layout mode. -/
theorem claim_C3_layout_tiling (maxY maxX : Int) (hy : 1 ≤ maxY) (hx : 1 ≤ maxX) :
    rectInBounds (computeLayout maxY maxX).workspaces (max 1 (maxY - 1)) maxX ∧
    rectInBounds (computeLayout maxY maxX).conversations (max 1 (maxY - 1)) maxX ∧
    rectInBounds (computeLayout maxY maxX).preview (max 1 (maxY - 1)) maxX ∧
    ((computeLayout maxY maxX).mode = "3col" ∨ (computeLayout maxY maxX).mode = "2col" ∨ (computeLayout maxY maxX).mode = "1col") ∧
    ((computeLayout maxY maxX).mode = "3col" →
      (computeLayout maxY maxX).workspaces.h = max 1 (maxY - 1) ∧ (computeLayout maxY maxX).conversations.h = max 1 (maxY - 1) ∧
      (computeLayout maxY maxX).preview.h = max 1 (maxY - 1) ∧
      (computeLayout maxY maxX).workspaces.x = 0 ∧ (computeLayout maxY maxX).conversations.x = (computeLayout maxY maxX).workspaces.w ∧
      (computeLayout maxY maxX).preview.x = (computeLayout maxY maxX).workspaces.w + (computeLayout maxY maxX).conversations.w ∧
      (computeLayout maxY maxX).workspaces.w + (computeLayout maxY maxX).conversations.w + (computeLayout maxY maxX).preview.w = maxX) ∧
    ((computeLayout maxY maxX).mode = "2col" →
      (computeLayout maxY maxX).workspaces.h = max 1 (maxY - 1) ∧ (computeLayout maxY maxX).workspaces.x = 0 ∧
      (computeLayout maxY maxX).conversations.x = (computeLayout maxY maxX).workspaces.w ∧ (computeLayout maxY maxX).preview.x = (computeLayout maxY maxX).workspaces.w ∧
      (computeLayout maxY maxX).conversations.y = 0 ∧ (computeLayout maxY maxX).preview.y = (computeLayout maxY maxX).conversations.h ∧
      (computeLayout maxY maxX).conversations.h + (computeLayout maxY maxX).preview.h = max 1 (maxY - 1) ∧
      (computeLayout maxY maxX).conversations.w = maxX - (computeLayout maxY maxX).workspaces.w ∧
      (computeLayout maxY maxX).preview.w = maxX - (computeLayout maxY maxX).workspaces.w) ∧
    ((computeLayout maxY maxX).mode = "1col" →
      (computeLayout maxY maxX).workspaces = (computeLayout maxY maxX).conversations ∧
      (computeLayout maxY maxX).workspaces.w = maxX ∧ (computeLayout maxY maxX).preview.w = maxX ∧
      (computeLayout maxY maxX).workspaces.y = 0 ∧ (computeLayout maxY maxX).preview.y = (computeLayout maxY maxX).workspaces.h ∧
      (computeLayout maxY maxX).workspaces.h + (computeLayout maxY maxX).preview.h = max 1 (maxY - 1)) := by
  have husable : (1 : Int) ≤ max 1 (maxY - 1) := le_max_left 1 (maxY - 1)
  unfold computeLayout
  by_cases h3 : maxX ≥ 120 ∧ max 1 (maxY - 1) ≥ 10
  · rw [if_pos h3]
    simp only [rectInBounds]
    refine ⟨?_, ?_, ?_, by simp, ?_, ?_, ?_⟩ <;> simp <;> omega
  · rw [if_neg h3]
    by_cases h2 : maxX ≥ 80 ∧ max 1 (maxY - 1) ≥ 10
    · rw [if_pos h2]
      simp only [rectInBounds]
      refine ⟨?_, ?_, ?_, by simp, ?_, ?_, ?_⟩ <;> simp <;> omega
    · rw [if_neg h2]
      simp only [rectInBounds, clamp]
      refine ⟨?_, ?_, ?_, by simp, ?_, ?_, ?_⟩ <;> simp <;> omega

/-- Witness for C3: the layout invariant at concrete terminal sizes, one
per mode, including a degenerate height-1 terminal. -/
theorem claim_C3_witness :
    (computeLayout 40 160).mode = "3col" ∧
    (computeLayout 24 100).mode = "2col" ∧
    (computeLayout 1 10).mode = "1col" ∧
    rectInBounds (computeLayout 40 160).preview (max 1 (40 - 1)) 160 ∧
    rectInBounds (computeLayout 1 10).workspaces (max 1 (1 - 1)) 10 := by
  refine ⟨by decide, by decide, by decide, ?_, ?_⟩
  · exact (claim_C3_layout_tiling 40 160 (by decide) (by decide)).2.2.1
  · exact (claim_C3_layout_tiling 1 10 (by decide) (by decide)).1

/-- C9 (code bug): at the failing input of the repository's own test —
default flags, a probe that accepts `--force`, an agent whose run would
report the administrative Run-Everything rejection — `exec_new_chat`
and `exec_resume_chat` each issue exactly one exec, still carrying
`--force`; no retry without the flag exists in the code. -/
theorem claim_C9_no_force_retry :
    execNewChatCommands "/tmp/cursor-agent" (some "/tmp/ws")
        DEFAULT_CURSOR_AGENT_FLAGS (fun _ => true)
      = [["/tmp/cursor-agent", "--workspace", "/tmp/ws",
          "--approve-mcps", "--browser", "--force"]] ∧
    execResumeChatCommands "/tmp/cursor-agent" (some "/tmp/ws")
        DEFAULT_CURSOR_AGENT_FLAGS (fun _ => true) "abc123"
      = [["/tmp/cursor-agent", "--workspace", "/tmp/ws",
          "--approve-mcps", "--browser", "--force", "--resume", "abc123"]] := by
  constructor <;> decide

/-- C8 counterexample: for the non-user/non-assistant role `"history"`
the rendered label line is the raw role `"history:"`, not the
capitalized `"History:"` the claim requires. -/
theorem claim_C8_counterexample :
    formatMessagesPreview [("history", "hi")] 600 = "history:\nhi" ∧
    pyStartsWith (formatMessagesPreview [("history", "hi")] 600) "History:" = false := by
  constructor <;> decide

theorem fmtLabel_eq_specFallbackLabel (role : String) :
    fmtLabel role = specFallbackLabel role := by
  unfold fmtLabel specFallbackLabel
  by_cases h1 : role = "user"
  · subst h1; rfl
  · by_cases h2 : role = "assistant"
    · subst h2; rfl
    · simp only [if_neg h1, if_neg h2]

theorem joinWithL_append (sep : List Char) (xs ys : List (List Char))
    (hx : xs ≠ []) (hy : ys ≠ []) :
    joinWithL sep (xs ++ ys) = joinWithL sep xs ++ sep ++ joinWithL sep ys := by
  induction xs with
  | nil => exact absurd rfl hx
  | cons p xs ih =>
    cases xs with
    | nil =>
      cases ys with
      | nil => exact absurd rfl hy
      | cons q ys => simp [joinWithL]
    | cons p2 xs2 =>
      have ih' := ih (by simp)
      calc joinWithL sep ((p :: p2 :: xs2) ++ ys)
          = p ++ sep ++ joinWithL sep ((p2 :: xs2) ++ ys) := rfl
        _ = p ++ sep ++ (joinWithL sep (p2 :: xs2) ++ sep ++ joinWithL sep ys) := by
              rw [ih']
        _ = (p ++ sep ++ joinWithL sep (p2 :: xs2)) ++ sep ++ joinWithL sep ys := by
              simp [List.append_assoc]
        _ = joinWithL sep (p :: p2 :: xs2) ++ sep ++ joinWithL sep ys := rfl

theorem trimRightL_append_newline (l : List Char) :
    trimRightL (l ++ [Char.ofNat 10]) = trimRightL l := by
  simp [trimRightL, trimLeftL, List.dropWhile]

theorem string_toList_append (a b : String) :
    (a ++ b).toList = a.toList ++ b.toList := by
  cases a; cases b; rfl

/-- The char-level bridge between the implementation's flat
`[label, text, ""]` parts joined by `"\n"` and the specification's
per-message blocks joined by `"\n\n"`: for nonempty message lists the
former is the latter plus one trailing newline. -/
theorem join_parts_eq_join_blocks (k : Int) (m : String × String)
    (msgs : List (String × String)) :
    joinWithL ['\n'] ((List.flatten ((m :: msgs).map (fmtParts k))).map String.toList)
      = joinWithL ['\n', '\n']
          (((m :: msgs).map
            (fun m => specFallbackLabel m.1 ++ ":\n" ++ fmtText k m.2)).map String.toList)
        ++ ['\n'] := by
  induction msgs generalizing m with
  | nil =>
    simp only [List.map_cons, List.map_nil, List.flatten, List.append_nil, fmtParts]
    simp only [List.map_cons, List.map_nil, joinWithL]
    rw [fmtLabel_eq_specFallbackLabel]
    rw [string_toList_append, string_toList_append, string_toList_append]
    simp [List.append_assoc]
  | cons m2 rest ih =>
    have hsplit : List.flatten ((m :: m2 :: rest).map (fmtParts k))
        = fmtParts k m ++ List.flatten ((m2 :: rest).map (fmtParts k)) := by
      simp [List.flatten]
    rw [hsplit]
    rw [List.map_append]
    rw [joinWithL_append ['\n'] _ _ (by simp [fmtParts]) (by simp [fmtParts, List.flatten])]
    rw [ih m2]
    have ha : (":\n").toList = [':', '\n'] := rfl
    have hb : (":").toList = [':'] := rfl
    simp only [fmtParts, List.map_cons, List.map_nil, joinWithL, fmtLabel_eq_specFallbackLabel,
      string_toList_append, ha, hb]
    simp [List.append_assoc]

/-- C8 amended: `format_messages_preview` renders each message as a
label line — `"User:"`, `"Assistant:"`, or for any other role the raw
role — followed by the (optionally truncated) stripped text and a blank
separator line, with the whole output right-stripped; non-positive
`max_chars_per_message` disables truncation entirely. -/
theorem claim_C8_preview_formatting (messages : List (String × String)) (k : Int) :
    formatMessagesPreview messages k = formatMessagesPreviewSpec messages k ∧
    (k ≤ 0 → ∀ text, fmtText k text = pyStrip text) := by
  constructor
  · cases messages with
    | nil => rfl
    | cons m msgs =>
      unfold formatMessagesPreview formatMessagesPreviewSpec pyJoin pyRStrip
      have hj := join_parts_eq_join_blocks k m msgs
      simp only [String.toList] at hj ⊢
      rw [hj]
      congr 1
      exact trimRightL_append_newline _
  · intro hk text
    unfold fmtText
    rw [if_neg]
    intro hcon
    omega

/-- Witness for C8: the amended rendering at a concrete input with a
truncating and a non-positive limit. -/
theorem claim_C8_witness :
    formatMessagesPreview [("user", " hello "), ("other", "x")] 600
      = formatMessagesPreviewSpec [("user", " hello "), ("other", "x")] 600 ∧
    fmtText (-1) "  abc  " = pyStrip "  abc  " := by
  constructor
  · exact (claim_C8_preview_formatting [("user", " hello "), ("other", "x")] 600).1
  · exact (claim_C8_preview_formatting [] (-1)).2 (by omega) "  abc  "

theorem appendMsg_of_stopped (fs : Bool) (mm : Option Int) (r t : String)
    (st : ExtractState) (h : st.stoppedEarly = true) :
    appendMsg fs mm r t st = st := by
  simp [appendMsg, h]

theorem appendMsg_of_seen (fs : Bool) (mm : Option Int) (r t : String)
    (st : ExtractState) (h0 : st.stoppedEarly = false) (h : (r, t) ∈ st.seen) :
    appendMsg fs mm r t st = st := by
  simp [appendMsg, h0, h]

theorem foldAppend_of_stopped (fs : Bool) (mm : Option Int)
    (msgs : List (String × String)) (st : ExtractState) (h : st.stoppedEarly = true) :
    foldAppend fs mm msgs st = st := by
  induction msgs with
  | nil => rfl
  | cons m rest ih =>
    unfold foldAppend at ih ⊢
    simp only [List.foldl_cons, appendMsg_of_stopped fs mm m.1 m.2 st h]
    exact ih

theorem processObjs_eq_foldAppend (roles : List String) (fs : Bool) (mm : Option Int)
    (objs : List JObj) (st : ExtractState) :
    processObjs roles fs mm objs st = foldAppend fs mm (objs.filterMap (acceptedOfObj roles)) st := by
  induction objs generalizing st with
  | nil => rfl
  | cons obj rest ih =>
    by_cases h : st.stoppedEarly
    · rw [foldAppend_of_stopped _ _ _ _ h]
      simp [processObjs, h]
    · simp only [processObjs, if_neg h]
      cases hacc : acceptedOfObj roles obj with
      | none => simp only [List.filterMap_cons, hacc]; exact ih st
      | some p =>
        simp only [List.filterMap_cons, hacc]
        unfold foldAppend
        simp only [List.foldl_cons]
        exact ih _

theorem processBlobs_eq_foldAppend (roles : List String) (fs : Bool) (mm : Option Int)
    (blobs : List Blob) (st : ExtractState) :
    processBlobs roles fs mm blobs st = foldAppend fs mm (candidateMessages roles blobs) st := by
  induction blobs generalizing st with
  | nil => rfl
  | cons b rest ih =>
    by_cases h : st.stoppedEarly
    · rw [foldAppend_of_stopped _ _ _ _ h]
      simp [processBlobs, h]
    · simp only [processBlobs, if_neg h]
      have hsplit : candidateMessages roles (b :: rest)
          = (if b.quickFilterPass then (b.objs.take 500).filterMap (acceptedOfObj roles) else [])
            ++ candidateMessages roles rest := by
        simp [candidateMessages]
      rw [hsplit]
      unfold foldAppend
      rw [List.foldl_append]
      by_cases hq : b.quickFilterPass
      · simp only [if_pos hq, processObjs_eq_foldAppend]
        exact ih _
      · simp only [if_neg hq, List.foldl_nil]
        exact ih st

/-- `_append` never drops a fresh entry through the adjacent-duplicate
check: whatever is in `out` is recorded in `seen`. -/
theorem appendMsg_invariant (fs : Bool) (mm : Option Int) (r t : String)
    (st : ExtractState) (hsub : ∀ x ∈ st.out, x ∈ st.seen) (hnd : st.out.Nodup) :
    (∀ x ∈ (appendMsg fs mm r t st).out, x ∈ (appendMsg fs mm r t st).seen) ∧
      (appendMsg fs mm r t st).out.Nodup := by
  unfold appendMsg
  by_cases h0 : st.stoppedEarly
  · simp only [h0, if_pos rfl]
    exact ⟨hsub, hnd⟩
  · simp only [if_neg h0]
    by_cases hseen : (r, t) ∈ st.seen
    · simp only [if_pos hseen]
      exact ⟨hsub, hnd⟩
    · simp only [if_neg hseen]
      by_cases hadj : st.out ≠ [] ∧ st.out.getLast? = some (r, t)
      · simp only [if_pos hadj]
        exact ⟨fun x hx => List.mem_cons_of_mem _ (hsub x hx), hnd⟩
      · simp only [if_neg hadj]
        have hnotout : (r, t) ∉ st.out := fun hmem => hseen (hsub _ hmem)
        constructor
        · intro x hx
          rcases List.mem_append.mp hx with hx | hx
          · exact List.mem_cons_of_mem _ (hsub x hx)
          · simp only [List.mem_singleton] at hx
            subst hx
            exact List.mem_cons_self _ _
        · simp [List.nodup_append, hnd, hnotout]

theorem foldAppend_invariant (fs : Bool) (mm : Option Int)
    (msgs : List (String × String)) (st : ExtractState)
    (hsub : ∀ x ∈ st.out, x ∈ st.seen) (hnd : st.out.Nodup) :
    (∀ x ∈ (foldAppend fs mm msgs st).out, x ∈ (foldAppend fs mm msgs st).seen) ∧
      (foldAppend fs mm msgs st).out.Nodup := by
  induction msgs generalizing st with
  | nil => exact ⟨hsub, hnd⟩
  | cons m rest ih =>
    unfold foldAppend
    simp only [List.foldl_cons]
    have h := appendMsg_invariant fs mm m.1 m.2 st hsub hnd
    exact ih _ h.1 h.2

/-- C10: the lists returned by `extract_recent_messages` and
`extract_initial_messages` are always pairwise distinct — the `seen`-set
dedup drops any pair equal to an earlier-accepted one (not only adjacent
repeats), as the mechanism clause states. -/
theorem claim_C10_no_duplicates (store : Option (List Blob))
    (maxMessages maxBlobs : Option Int) (mInit : Int) (roles : List String) :
    (extractRecentMessages store maxMessages maxBlobs roles).Nodup ∧
    (extractInitialMessages store mInit maxBlobs roles).Nodup ∧
    (∀ (fs : Bool) (mm : Option Int) (r t : String) (st : ExtractState),
      st.stoppedEarly = false → (r, t) ∈ st.seen → appendMsg fs mm r t st = st) := by
  have hconn : ∀ (blobs : List Blob) (mm maxB : Option Int) (rs : List String) (fs : Bool),
      (extractMessagesFromConnection blobs mm maxB rs fs).Nodup := by
    intro blobs mm maxB rs fs
    unfold extractMessagesFromConnection
    have hout : ∀ (sel : List Blob) (mm2 : Option Int),
        (processBlobs rs fs mm2 sel ⟨[], [], false⟩).out.Nodup := by
      intro sel mm2
      have hst := foldAppend_invariant fs mm2 (candidateMessages rs sel)
        ⟨[], [], false⟩ (by simp) (by simp)
      rw [← processBlobs_eq_foldAppend] at hst
      exact hst.2
    have htail : ∀ (sel : List Blob) (mm2 : Option Int),
        (match mm2 with
         | none => (processBlobs rs fs mm2 sel ⟨[], [], false⟩).out
         | some m =>
           if fs = true then
             List.take m.toNat (processBlobs rs fs mm2 sel ⟨[], [], false⟩).out
           else takeRight (processBlobs rs fs mm2 sel ⟨[], [], false⟩).out m.toNat).Nodup := by
      intro sel mm2
      cases mm2 with
      | none => exact hout sel none
      | some m =>
        dsimp only
        by_cases hfs : fs
        · rw [if_pos hfs]
          exact (hout sel (some m)).sublist (List.take_sublist _ _)
        · rw [if_neg hfs]
          unfold takeRight
          exact (hout sel (some m)).sublist (List.drop_sublist _ _)
    have hrun : ∀ (blobs2 : List Blob) (mm2 : Option Int),
        (extractMessagesFromConnection.runSelected blobs2 mm2 maxB rs fs).Nodup := by
      intro blobs2 mm2
      unfold extractMessagesFromConnection.runSelected
      cases maxB with
      | none =>
        dsimp only
        exact htail blobs2 mm2
      | some k =>
        dsimp only
        by_cases hk : k ≤ 0
        · rw [if_pos hk]
          exact List.nodup_nil
        · rw [if_neg hk]
          by_cases hfs2 : fs
          · rw [if_pos hfs2]
            exact htail _ mm2
          · rw [if_neg hfs2]
            exact htail _ mm2
    cases mm with
    | none => exact hrun blobs none
    | some m =>
      by_cases hm : m ≤ 0
      · simp [hm]
      · simp only [if_neg hm]
        exact hrun blobs (some m)
  refine ⟨?_, ?_, ?_⟩
  · unfold extractRecentMessages
    cases maxMessages with
    | none => cases store with
      | none => simp
      | some blobs => exact hconn blobs none maxBlobs roles false
    | some m =>
      by_cases hm : m ≤ 0
      · simp [hm]
      · simp only [if_neg hm]
        cases store with
        | none => simp
        | some blobs => exact hconn blobs (some m) maxBlobs roles false
  · unfold extractInitialMessages
    by_cases hm : mInit ≤ 0
    · simp [hm]
    · simp only [if_neg hm]
      cases store with
      | none => simp
      | some blobs => exact hconn blobs (some mInit) maxBlobs roles true
  · intro fs mm r t st h0 hseen
    exact appendMsg_of_seen fs mm r t st h0 hseen

/-- A fresh entry (not yet seen) is always appended, with `seen` and
`out` extended and the stop flag recomputed. -/
theorem appendMsg_fresh (fs : Bool) (mm : Option Int) (r t : String)
    (st : ExtractState) (h0 : st.stoppedEarly = false) (hseen : (r, t) ∉ st.seen)
    (hsub : ∀ x ∈ st.out, x ∈ st.seen) :
    appendMsg fs mm r t st =
      ⟨(r, t) :: st.seen, st.out ++ [(r, t)],
        fs && (match mm with
               | some m => decide (((st.out ++ [(r, t)]).length : Int) ≥ m)
               | none => false)⟩ := by
  unfold appendMsg
  rw [if_neg (by simp [h0]), if_neg hseen, if_neg ?adj]
  case adj =>
    rintro ⟨hne, hlast⟩
    exact hseen (hsub _ (List.mem_of_mem_getLast? (by rw [hlast]; rfl)))

theorem foldAppend_cons (fs : Bool) (mm : Option Int) (p : String × String)
    (rest : List (String × String)) (st : ExtractState) :
    foldAppend fs mm (p :: rest) st = foldAppend fs mm rest (appendMsg fs mm p.1 p.2 st) := rfl

/-- With `from_start=False` the stop flag is never raised, so a run over
pairwise-distinct fresh entries appends all of them in order. -/
theorem foldAppend_noStop (mm : Option Int) (msgs : List (String × String))
    (st : ExtractState) (h0 : st.stoppedEarly = false) (hnd : msgs.Nodup)
    (hfresh : ∀ x ∈ msgs, x ∉ st.seen) (hsub : ∀ x ∈ st.out, x ∈ st.seen) :
    (foldAppend false mm msgs st).out = st.out ++ msgs := by
  induction msgs generalizing st with
  | nil => simp [foldAppend]
  | cons p rest ih =>
    obtain ⟨r, t⟩ := p
    rw [foldAppend_cons]
    rw [show appendMsg false mm (r, t).1 (r, t).2 st
        = ⟨(r, t) :: st.seen, st.out ++ [(r, t)], false⟩ by
      rw [appendMsg_fresh false mm r t st h0 (hfresh _ (List.mem_cons_self _ _)) hsub]
      simp]
    have hres := ih ⟨(r, t) :: st.seen, st.out ++ [(r, t)], false⟩
      rfl (List.Nodup.of_cons hnd)
      (by
        intro x hx
        simp only [List.mem_cons]
        rintro (hx1 | hx2)
        · subst hx1
          exact (List.nodup_cons.mp hnd).1 hx
        · exact hfresh x (List.mem_cons_of_mem _ hx) hx2)
      (by
        intro x hx
        rcases List.mem_append.mp hx with hx | hx
        · exact List.mem_cons_of_mem _ (hsub x hx)
        · simp only [List.mem_singleton] at hx
          subst hx
          exact List.mem_cons_self _ _)
    rw [hres]
    simp

/-- With `from_start=True` and a positive budget, a run over
pairwise-distinct fresh entries collects exactly the first
`max_messages - len(out)` of them and then stops. -/
theorem foldAppend_fromStart (m : Int) (msgs : List (String × String))
    (st : ExtractState) (h0 : st.stoppedEarly = false)
    (hlen : (st.out.length : Int) < m) (hnd : msgs.Nodup)
    (hfresh : ∀ x ∈ msgs, x ∉ st.seen) (hsub : ∀ x ∈ st.out, x ∈ st.seen) :
    (foldAppend true (some m) msgs st).out
      = st.out ++ msgs.take (m.toNat - st.out.length) := by
  induction msgs generalizing st with
  | nil => simp [foldAppend]
  | cons p rest ih =>
    obtain ⟨r, t⟩ := p
    rw [foldAppend_cons]
    by_cases hstop : ((st.out.length + 1 : Int) ≥ m)
    · have hflag : decide ((((st.out ++ [(r, t)]).length : Nat) : Int) ≥ m) = true := by
        simp only [decide_eq_true_eq, List.length_append, List.length_singleton]
        push_cast
        exact hstop
      rw [show appendMsg true (some m) (r, t).1 (r, t).2 st
          = ⟨(r, t) :: st.seen, st.out ++ [(r, t)],
              decide ((((st.out ++ [(r, t)]).length : Nat) : Int) ≥ m)⟩ by
        rw [appendMsg_fresh true (some m) r t st h0 (hfresh _ (List.mem_cons_self _ _)) hsub]
        simp]
      rw [foldAppend_of_stopped true (some m) rest _ hflag]
      have hone : m.toNat - st.out.length = 1 := by omega
      rw [hone]
      simp
    · have hflag : decide ((((st.out ++ [(r, t)]).length : Nat) : Int) ≥ m) = false := by
        simp only [decide_eq_false_iff_not, List.length_append, List.length_singleton]
        push_cast
        omega
      rw [show appendMsg true (some m) (r, t).1 (r, t).2 st
          = ⟨(r, t) :: st.seen, st.out ++ [(r, t)], false⟩ by
        rw [appendMsg_fresh true (some m) r t st h0 (hfresh _ (List.mem_cons_self _ _)) hsub]
        dsimp only
        rw [Bool.true_and, hflag]]
      have hres := ih ⟨(r, t) :: st.seen, st.out ++ [(r, t)], false⟩
        rfl
        (by
          simp only [List.length_append, List.length_singleton]
          push_cast
          omega)
        (List.Nodup.of_cons hnd)
        (by
          intro x hx
          simp only [List.mem_cons]
          rintro (hx1 | hx2)
          · subst hx1
            exact (List.nodup_cons.mp hnd).1 hx
          · exact hfresh x (List.mem_cons_of_mem _ hx) hx2)
        (by
          intro x hx
          rcases List.mem_append.mp hx with hx | hx
          · exact List.mem_cons_of_mem _ (hsub x hx)
          · simp only [List.mem_singleton] at hx
            subst hx
            exact List.mem_cons_self _ _)
      rw [hres]
      simp only [List.length_append, List.length_singleton]
      have hsucc : m.toNat - st.out.length = (m.toNat - (st.out.length + 1)) + 1 := by omega
      rw [hsucc, List.take_succ_cons]
      simp

theorem takeRight_of_length_le (l : List α) (n : Nat) (h : l.length ≤ n) :
    takeRight l n = l := by
  unfold takeRight
  rw [Nat.sub_eq_zero_of_le h]
  exact List.drop_zero l

/-- C1: on a store whose blobs yield six distinct extractable messages
`m0..m5` in chronological order with alternating roles,
`extract_initial_messages(max_messages=3)` returns the first three and
`extract_recent_messages(max_messages=3)` (default `max_blobs=200`) the
last three, both in chronological order; and with `max_messages ≤ 0`
both functions return `[]` on every store. -/
theorem claim_C1_message_windowing (blobs : List Blob) (m0 m1 m2 m3 m4 m5 : String)
    (hcand : candidateMessages ["user", "assistant"] blobs
      = [("user", m0), ("assistant", m1), ("user", m2),
         ("assistant", m3), ("user", m4), ("assistant", m5)])
    (hdist : ([m0, m1, m2, m3, m4, m5] : List String).Nodup)
    (hblobs : blobs.length ≤ 200) :
    extractInitialMessages (some blobs) 3 none ["user", "assistant"]
      = [("user", m0), ("assistant", m1), ("user", m2)] ∧
    extractRecentMessages (some blobs) (some 3) (some 200) ["user", "assistant"]
      = [("assistant", m3), ("user", m4), ("assistant", m5)] ∧
    (∀ (store : Option (List Blob)) (mI : Int) (maxB : Option Int) (rs : List String),
      mI ≤ 0 →
      extractRecentMessages store (some mI) maxB rs = [] ∧
      extractInitialMessages store mI maxB rs = []) := by
  have hpairs : ([("user", m0), ("assistant", m1), ("user", m2),
      ("assistant", m3), ("user", m4), ("assistant", m5)] : List (String × String)).Nodup :=
    List.Nodup.of_map Prod.snd hdist
  have hcand_nodup : (candidateMessages ["user", "assistant"] blobs).Nodup := by
    rw [hcand]; exact hpairs
  refine ⟨?_, ?_, ?_⟩
  · unfold extractInitialMessages
    rw [if_neg (by omega)]
    unfold extractMessagesFromConnection
    dsimp only
    rw [if_neg (by omega)]
    unfold extractMessagesFromConnection.runSelected
    dsimp only
    rw [if_pos rfl]
    rw [processBlobs_eq_foldAppend]
    rw [foldAppend_fromStart 3 _ _ rfl (by decide) hcand_nodup (by simp) (by simp)]
    rw [hcand]
    rfl
  · unfold extractRecentMessages
    dsimp only
    rw [if_neg (by omega)]
    unfold extractMessagesFromConnection
    dsimp only
    rw [if_neg (by omega)]
    unfold extractMessagesFromConnection.runSelected
    dsimp only
    rw [if_neg (by omega), if_neg (by simp)]
    dsimp only
    rw [takeRight_of_length_le blobs (Int.toNat 200) hblobs]
    rw [if_neg (by simp)]
    rw [processBlobs_eq_foldAppend]
    rw [foldAppend_noStop (some 3) _ _ rfl hcand_nodup (by simp) (by simp)]
    rw [hcand]
    rfl
  · intro store mI maxB rs hm
    constructor
    · unfold extractRecentMessages
      dsimp only
      rw [if_pos hm]
    · unfold extractInitialMessages
      rw [if_pos hm]

/-- Witness for C1: a concrete store — six distinct messages spread over
three blobs, alternating roles — on which the theorem's conclusions are
checked. -/
theorem claim_C1_witness :
    extractInitialMessages
      (some [⟨true, [[("role", .str "user"), ("content", .str "m0")],
                     [("role", .str "assistant"), ("content", .str "m1")]]⟩,
             ⟨true, [[("role", .str "user"), ("content", .str "m2")],
                     [("role", .str "assistant"), ("content", .str "m3")]]⟩,
             ⟨true, [[("role", .str "user"), ("content", .str "m4")],
                     [("role", .str "assistant"), ("content", .str "m5")]]⟩])
      3 none ["user", "assistant"]
      = [("user", "m0"), ("assistant", "m1"), ("user", "m2")] ∧
    extractRecentMessages
      (some [⟨true, [[("role", .str "user"), ("content", .str "m0")],
                     [("role", .str "assistant"), ("content", .str "m1")]]⟩,
             ⟨true, [[("role", .str "user"), ("content", .str "m2")],
                     [("role", .str "assistant"), ("content", .str "m3")]]⟩,
             ⟨true, [[("role", .str "user"), ("content", .str "m4")],
                     [("role", .str "assistant"), ("content", .str "m5")]]⟩])
      (some 3) (some 200) ["user", "assistant"]
      = [("assistant", "m3"), ("user", "m4"), ("assistant", "m5")] ∧
    extractRecentMessages none (some 0) (some 200) ["user", "assistant"] = [] := by
  have h := claim_C1_message_windowing
    [⟨true, [[("role", .str "user"), ("content", .str "m0")],
             [("role", .str "assistant"), ("content", .str "m1")]]⟩,
     ⟨true, [[("role", .str "user"), ("content", .str "m2")],
             [("role", .str "assistant"), ("content", .str "m3")]]⟩,
     ⟨true, [[("role", .str "user"), ("content", .str "m4")],
             [("role", .str "assistant"), ("content", .str "m5")]]⟩]
    "m0" "m1" "m2" "m3" "m4" "m5" (by decide) (by decide) (by decide)
  exact ⟨h.1, h.2.1, (h.2.2 none 0 (some 200) ["user", "assistant"] (by omega)).1⟩

/-- Witness for C10: the theorem applied at a concrete store containing a
repeated (non-adjacent) message, whose extraction is duplicate-free. -/
theorem claim_C10_witness :
    (extractRecentMessages
      (some [⟨true, [[("role", .str "user"), ("content", .str "dup")],
                     [("role", .str "assistant"), ("content", .str "mid")],
                     [("role", .str "user"), ("content", .str "dup")]]⟩])
      (some 10) (some 200) ["user", "assistant"]).Nodup ∧
    appendMsg false none "user" "dup" ⟨[("user", "dup")], [("user", "dup")], false⟩
      = ⟨[("user", "dup")], [("user", "dup")], false⟩ := by
  constructor
  · exact (claim_C10_no_duplicates _ (some 10) (some 200) 1 ["user", "assistant"]).1
  · exact (claim_C10_no_duplicates none none none 1 []).2.2 false none "user" "dup"
      ⟨[("user", "dup")], [("user", "dup")], false⟩ rfl (by simp)

theorem checkMember_error_iff (m : TarMember) :
    (∃ e, checkMember m = Except.error e) ↔ unsafeMember m = true := by
  unfold checkMember unsafeMember
  by_cases h1 : pyStartsWith m.name "/" ∨ pyStartsWith m.name "\\"
  · rw [if_pos h1]
    rcases h1 with h1 | h1 <;> simp [h1]
  · rw [if_neg h1]
    push_neg at h1
    by_cases h2 : (pyPathParts m.name).contains ".."
    · rw [if_pos h2]
      simp [h1.1, h1.2, h2]
      exact Or.inl (by simpa using h2)
    · rw [if_neg h2]
      simp only [Bool.not_eq_true] at h2
      by_cases h3 : m.isLink ∧
          (pyStartsWith m.linkname "/" ∨ pyStartsWith m.linkname "\\" ∨
            (pyPathParts m.linkname).contains "..")
      · rw [if_pos h3]
        obtain ⟨h3a, h3b⟩ := h3
        simp only [h1.1, h1.2, h2, h3a, Bool.false_or, Bool.true_and]
        constructor
        · intro _
          rcases h3b with hb | hb | hb <;> simp [hb]
          exact Or.inr (by simpa using hb)
        · intro _
          exact ⟨_, rfl⟩
      · rw [if_neg h3]
        simp only [h1.1, h1.2, h2, Bool.false_or]
        constructor
        · rintro ⟨e, he⟩
          exact absurd he (by simp)
        · intro hcon
          exfalso
          rcases Bool.and_eq_true _ _ |>.mp hcon with ⟨hl, hrest⟩
          refine h3 ⟨hl, ?_⟩
          rcases Bool.or_eq_true _ _ |>.mp hrest with h | h
          · rcases Bool.or_eq_true _ _ |>.mp h with h | h
            · exact Or.inl h
            · exact Or.inr (Or.inl h)
          · exact Or.inr (Or.inr h)

theorem validateMembers_error_of_unsafe (members : List TarMember)
    (h : ∃ m ∈ members, unsafeMember m = true) :
    ∃ e, validateMembers members = Except.error e := by
  induction members with
  | nil => simp at h
  | cons m rest ih =>
    unfold validateMembers
    cases hc : checkMember m with
    | error e => exact ⟨e, rfl⟩
    | ok _ =>
      obtain ⟨m2, hm2, hunsafe⟩ := h
      rcases List.mem_cons.mp hm2 with hm2 | hm2
      · subst hm2
        obtain ⟨e, he⟩ := (checkMember_error_iff m2).mpr hunsafe
        rw [hc] at he
        exact absurd he (by simp)
      · exact ih ⟨m2, hm2, hunsafe⟩

/-- C7: an archive containing any member with an absolute or
`..`-traversing path, or any link member with an absolute or
`..`-traversing target, makes extraction fail with an unsafe-member
error, and — since every member is validated before extraction begins —
nothing at all is written to the destination. -/
theorem claim_C7_unsafe_tar_rejected (members : List TarMember)
    (h : ∃ m ∈ members, unsafeMember m = true) :
    ∃ e, safeExtractTarGz members = ([], Except.error e) := by
  obtain ⟨e, he⟩ := validateMembers_error_of_unsafe members h
  exact ⟨e, by unfold safeExtractTarGz; rw [he]⟩

/-- Witness for C7: a concrete archive with a `..`-traversing member and
a concrete archive with an absolute symlink target are both rejected
with nothing written. -/
theorem claim_C7_witness :
    (∃ e, safeExtractTarGz [⟨"ccm/ccm", false, ""⟩, ⟨"../evil", false, ""⟩]
      = ([], Except.error e)) ∧
    (∃ e, safeExtractTarGz [⟨"ccm/link", true, "/etc/passwd"⟩]
      = ([], Except.error e)) := by
  constructor
  · exact claim_C7_unsafe_tar_rejected _ ⟨⟨"../evil", false, ""⟩, by decide, by decide⟩
  · exact claim_C7_unsafe_tar_rejected _ ⟨⟨"ccm/link", true, "/etc/passwd"⟩, by decide, by decide⟩

theorem checkMember_ok_of_safe (m : TarMember) (h : unsafeMember m = false) :
    checkMember m = Except.ok () := by
  cases hc : checkMember m with
  | ok u => rfl
  | error e =>
    exfalso
    have := (checkMember_error_iff m).mp ⟨e, hc⟩
    rw [h] at this
    exact absurd this (by simp)

theorem safeExtractTarGz_of_safe (members : List TarMember)
    (h : ∀ m ∈ members, unsafeMember m = false) :
    safeExtractTarGz members = (members.map (·.name), Except.ok ()) := by
  have hval : validateMembers members = Except.ok () := by
    induction members with
    | nil => rfl
    | cons m rest ih =>
      unfold validateMembers
      rw [checkMember_ok_of_safe m (h m (List.mem_cons_self _ _))]
      exact ih (fun m2 hm2 => h m2 (List.mem_cons_of_mem _ hm2))
  unfold safeExtractTarGz
  rw [hval]

theorem concat_ne_concat_of_last_ne (l1 l2 : List String) (a b : String) (h : a ≠ b) :
    l1 ++ [a] ≠ l2 ++ [b] := by
  intro heq
  have h1 := List.getLast?_concat (a := a) l1
  rw [heq, List.getLast?_concat] at h1
  exact h (Option.some.inj h1.symm)

theorem foldl_dtStep_writeMembers (p : PathM) (acc : Option (PathM ⊕ String))
    (names : List String) :
    (names.map FsEvent.writeMember).foldl (dtStep p) acc = acc := by
  induction names generalizing acc with
  | nil => rfl
  | cons n rest ih =>
    simp only [List.map_cons, List.foldl_cons, dtStep]
    exact ih acc

theorem foldl_dtStep_removeChunk (p : PathM) (acc : Option (PathM ⊕ String)) (b : Bool) :
    ((if b then [FsEvent.removeOldVersionDir] else []).foldl (dtStep p) acc) = acc := by
  cases b <;> rfl

theorem foldl_dtStep_aliasChunk (p : PathM) (acc : Option (PathM ⊕ String)) (b : Bool) :
    ((if b then [FsEvent.unlinkAlias] else []).foldl (dtStep p) acc) = acc := by
  cases b <;> rfl

/-- C2, part one: with an expected digest present and a SHA-256 mismatch,
the installer fails with a message naming both digests, before acquiring
the lock and before any filesystem mutation (empty event trace: no
`current` symlink, no version directory, no bin-dir symlink).  Part two:
with a matching digest (and an otherwise healthy world) installation
succeeds and both `<bin_dir>/ccm` and `<bin_dir>/cursor-cli-manager`
resolve to the installed executable. -/
theorem claim_C2_checksum_gate_and_install :
    (∀ (a : InstallArgs) (w : InstallWorld) (txt expected : String),
      pyEndsWith a.assetName ".tar.gz" = true →
      a.verifyChecksums = true →
      w.checksumsFile = some txt →
      lookupStr (parseChecksumsTxt txt) a.assetName = some expected →
      expected ≠ "" →
      pyLower (w.sha256 w.assetData) ≠ pyLower expected →
      downloadAndInstallReleaseBundle a w
        = ([], Except.error ("checksum mismatch for " ++ a.assetName ++ ": expected "
            ++ expected ++ ", got " ++ w.sha256 w.assetData))) ∧
    (∀ (a : InstallArgs) (w : InstallWorld) (txt expected : String),
      pyEndsWith a.assetName ".tar.gz" = true →
      a.verifyChecksums = true →
      w.checksumsFile = some txt →
      lookupStr (parseChecksumsTxt txt) a.assetName = some expected →
      expected ≠ "" →
      pyLower (w.sha256 w.assetData) = pyLower expected →
      w.lockFree = true →
      isWithin a.binDir (a.installRoot ++ ["current"]) = false →
      isWithin a.binDir (a.installRoot ++ ["versions"]) = false →
      (∀ mem ∈ w.archiveMembers, unsafeMember mem = false) →
      w.archiveMembers.any (fun mem => mem.name = "ccm/ccm") = true →
      (downloadAndInstallReleaseBundle a w).2
          = Except.ok (a.installRoot ++ ["current", "ccm", "ccm"]) ∧
      resolveToPath (downloadAndInstallReleaseBundle a w).1 (a.binDir ++ ["ccm"])
          = some (a.installRoot ++ ["current", "ccm", "ccm"]) ∧
      resolveToPath (downloadAndInstallReleaseBundle a w).1
          (a.binDir ++ ["cursor-cli-manager"])
          = some (a.installRoot ++ ["current", "ccm", "ccm"])) := by
  have hfetch : ∀ (a : InstallArgs) (w : InstallWorld) (txt : String),
      a.verifyChecksums = true → w.checksumsFile = some txt →
      fetchedChecksums a.verifyChecksums w.checksumsFile = parseChecksumsTxt txt := by
    intro a w txt hv htxt
    unfold fetchedChecksums
    rw [if_pos hv, htxt]
  have hcs_ne : ∀ (txt expected : String) (an : String),
      lookupStr (parseChecksumsTxt txt) an = some expected →
      parseChecksumsTxt txt ≠ [] := by
    intro txt expected an hentry h0
    rw [h0] at hentry
    simp [lookupStr] at hentry
  constructor
  · intro a w txt expected hends hv htxt hentry hne hmismatch
    unfold downloadAndInstallReleaseBundle
    rw [if_neg (by simp [hends])]
    rw [hfetch a w txt hv htxt]
    have hgate : checksumGateError a.verifyChecksums (parseChecksumsTxt txt)
        a.assetName (w.sha256 w.assetData)
        = some ("checksum mismatch for " ++ a.assetName ++ ": expected "
            ++ expected ++ ", got " ++ w.sha256 w.assetData) := by
      unfold checksumGateError
      rw [if_pos ⟨hv, hcs_ne txt expected a.assetName hentry⟩, hentry]
      dsimp only
      rw [if_pos hne, if_pos hmismatch]
    rw [hgate]
  · intro a w txt expected hends hv htxt hentry hne hmatch hlock hwithin1 hwithin2
      hmembers hexe
    have hgate : checksumGateError a.verifyChecksums (parseChecksumsTxt txt)
        a.assetName (w.sha256 w.assetData) = none := by
      unfold checksumGateError
      rw [if_pos ⟨hv, hcs_ne txt expected a.assetName hentry⟩, hentry]
      dsimp only
      rw [if_pos hne, if_neg (not_not_intro hmatch)]
    have hvc : ¬(a.installRoot ++ ["versions", a.tag] = a.installRoot ++ ["current"]) := by
      intro h
      have := List.append_cancel_left h
      simp at this
    have hbt : ¬(a.binDir ++ ["ccm"] = (a.installRoot ++ ["current"]) ++ ["ccm", "ccm"]) := by
      intro h
      have h2 : a.binDir ++ ["ccm"] = (a.installRoot ++ ["current", "ccm"]) ++ ["ccm"] := by
        rw [h]
        simp [List.append_assoc]
      have h3 := List.append_cancel_right h2
      have hpre : (a.installRoot ++ ["current"]).isPrefixOf a.binDir = true := by
        rw [h3]
        refine List.isPrefixOf_iff_prefix.mpr ⟨["ccm"], ?_⟩
        simp [List.append_assoc]
      unfold isWithin at hwithin1
      rw [hwithin1] at hpre
      exact absurd hpre (by simp)
    have hmain : downloadAndInstallReleaseBundle a w = installLocked a w := by
      unfold downloadAndInstallReleaseBundle
      rw [if_neg (by simp [hends])]
      rw [hfetch a w txt hv htxt, hgate]
      dsimp only
      rw [if_neg (by simp [hlock])]
    have hinst : installLocked a w
        = ([FsEvent.mkdirInstallRoot, FsEvent.lockAcquired]
            ++ [FsEvent.mkdirVersionsDir, FsEvent.makeTempDir]
            ++ (w.archiveMembers.map (·.name)).map FsEvent.writeMember
            ++ [FsEvent.chmodExecutable]
            ++ (if w.versionDirExists then [FsEvent.removeOldVersionDir] else [])
            ++ [FsEvent.renameTmpToVersionDir]
            ++ [FsEvent.symlink (a.installRoot ++ ["current"])
                  (a.installRoot ++ ["versions", a.tag]), FsEvent.mkdirBinDir]
            ++ [FsEvent.symlink (a.binDir ++ ["ccm"])
                  ((a.installRoot ++ ["current"]) ++ ["ccm", "ccm"])]
            ++ (if w.aliasExists then [FsEvent.unlinkAlias] else [])
            ++ [FsEvent.symlinkRel (a.binDir ++ ["cursor-cli-manager"]) "ccm"]
            ++ [FsEvent.lockReleased],
           Except.ok ((a.installRoot ++ ["current"]) ++ ["ccm", "ccm"])) := by
      unfold installLocked
      rw [if_neg (by simp [hwithin1, hwithin2])]
      rw [safeExtractTarGz_of_safe w.archiveMembers hmembers]
      dsimp only
      rw [if_neg (by simp [hexe]), if_neg hvc, if_neg hbt]
    have hne_current : ¬(a.installRoot ++ ["current"] = a.binDir ++ ["ccm"]) :=
      concat_ne_concat_of_last_ne a.installRoot a.binDir "current" "ccm" (by decide)
    have hne_alias1 : ¬(a.installRoot ++ ["current"]
        = a.binDir ++ ["cursor-cli-manager"]) :=
      concat_ne_concat_of_last_ne a.installRoot a.binDir "current"
        "cursor-cli-manager" (by decide)
    have hne_alias2 : ¬(a.binDir ++ ["ccm"] = a.binDir ++ ["cursor-cli-manager"]) :=
      concat_ne_concat_of_last_ne a.binDir a.binDir "ccm" "cursor-cli-manager" (by decide)
    have hne_rel : ¬(a.binDir ++ ["cursor-cli-manager"] = a.binDir ++ ["ccm"]) :=
      concat_ne_concat_of_last_ne a.binDir a.binDir "cursor-cli-manager" "ccm" (by decide)
    have hdt_bin : directTarget (downloadAndInstallReleaseBundle a w).1
        (a.binDir ++ ["ccm"])
        = some (Sum.inl ((a.installRoot ++ ["current"]) ++ ["ccm", "ccm"])) := by
      rw [hmain, hinst]
      unfold directTarget
      simp only [List.foldl_append, List.foldl_cons, List.foldl_nil,
        foldl_dtStep_writeMembers, foldl_dtStep_removeChunk, foldl_dtStep_aliasChunk,
        dtStep]
      rw [if_neg hne_rel]
      simp
    have hdt_alias : directTarget (downloadAndInstallReleaseBundle a w).1
        (a.binDir ++ ["cursor-cli-manager"]) = some (Sum.inr "ccm") := by
      rw [hmain, hinst]
      unfold directTarget
      simp only [List.foldl_append, List.foldl_cons, List.foldl_nil,
        foldl_dtStep_writeMembers, foldl_dtStep_removeChunk, foldl_dtStep_aliasChunk,
        dtStep]
      simp
    refine ⟨?_, ?_, ?_⟩
    · rw [hmain, hinst]
      simp [List.append_assoc]
    · unfold resolveToPath
      rw [hdt_bin]
      simp [List.append_assoc]
    · unfold resolveToPath
      rw [hdt_alias]
      dsimp only
      simp only [List.dropLast_concat]
      rw [hdt_bin]
      simp [List.append_assoc]

/-- Witness for C2: a concrete mismatching world is rejected with an
empty mutation trace, and a concrete matching world installs with both
bin-dir entries resolving to the executable. -/
theorem claim_C2_witness :
    downloadAndInstallReleaseBundle
        ⟨"v1", "ccm-linux-x86_64-nc6.tar.gz", ["root"], ["bin"], true⟩
        ⟨[1, 2], some "aaaaaaaaaaaaaaaaaaaaaaaaaaaaaaaa  ccm-linux-x86_64-nc6.tar.gz",
          fun _ => "bbbbbbbbbbbbbbbbbbbbbbbbbbbbbbbb", true,
          [⟨"ccm", false, ""⟩, ⟨"ccm/ccm", false, ""⟩], false, false⟩
      = ([], Except.error ("checksum mismatch for ccm-linux-x86_64-nc6.tar.gz: expected "
          ++ "aaaaaaaaaaaaaaaaaaaaaaaaaaaaaaaa" ++ ", got "
          ++ "bbbbbbbbbbbbbbbbbbbbbbbbbbbbbbbb")) ∧
    (downloadAndInstallReleaseBundle
        ⟨"v1", "ccm-linux-x86_64-nc6.tar.gz", ["root"], ["bin"], true⟩
        ⟨[1, 2], some "aaaaaaaaaaaaaaaaaaaaaaaaaaaaaaaa  ccm-linux-x86_64-nc6.tar.gz",
          fun _ => "aaaaaaaaaaaaaaaaaaaaaaaaaaaaaaaa", true,
          [⟨"ccm", false, ""⟩, ⟨"ccm/ccm", false, ""⟩], false, false⟩).2
      = Except.ok ["root", "current", "ccm", "ccm"] ∧
    resolveToPath
      (downloadAndInstallReleaseBundle
        ⟨"v1", "ccm-linux-x86_64-nc6.tar.gz", ["root"], ["bin"], true⟩
        ⟨[1, 2], some "aaaaaaaaaaaaaaaaaaaaaaaaaaaaaaaa  ccm-linux-x86_64-nc6.tar.gz",
          fun _ => "aaaaaaaaaaaaaaaaaaaaaaaaaaaaaaaa", true,
          [⟨"ccm", false, ""⟩, ⟨"ccm/ccm", false, ""⟩], false, false⟩).1
      ["bin", "cursor-cli-manager"]
      = some ["root", "current", "ccm", "ccm"] := by
  refine ⟨?_, ?_, ?_⟩
  · exact claim_C2_checksum_gate_and_install.1 _ _
      "aaaaaaaaaaaaaaaaaaaaaaaaaaaaaaaa  ccm-linux-x86_64-nc6.tar.gz"
      "aaaaaaaaaaaaaaaaaaaaaaaaaaaaaaaa"
      (by decide) rfl rfl (by decide) (by decide) (by decide)
  · exact (claim_C2_checksum_gate_and_install.2 _ _
      "aaaaaaaaaaaaaaaaaaaaaaaaaaaaaaaa  ccm-linux-x86_64-nc6.tar.gz"
      "aaaaaaaaaaaaaaaaaaaaaaaaaaaaaaaa"
      (by decide) rfl rfl (by decide) (by decide) (by decide) rfl (by decide) (by decide)
      (by decide) (by decide)).1
  · exact (claim_C2_checksum_gate_and_install.2 _ _
      "aaaaaaaaaaaaaaaaaaaaaaaaaaaaaaaa  ccm-linux-x86_64-nc6.tar.gz"
      "aaaaaaaaaaaaaaaaaaaaaaaaaaaaaaaa"
      (by decide) rfl rfl (by decide) (by decide) (by decide) rfl (by decide) (by decide)
      (by decide) (by decide)).2.2

theorem lookupStr_cons (hp : String × String) (rest : List (String × String))
    (k : String) :
    lookupStr (hp :: rest) k = if hp.1 = k then some hp.2 else lookupStr rest k := by
  unfold lookupStr
  rw [List.find?_cons]
  by_cases hk : hp.1 = k
  · simp [hk]
  · simp [hk]

theorem lookupStr_append_single_self (t : List (String × String)) (k v : String)
    (h : t.any (fun p => p.1 = k) = false) :
    lookupStr (t ++ [(k, v)]) k = some v := by
  induction t with
  | nil => simp [lookupStr_cons]
  | cons hp rest ih =>
    simp only [List.any_cons, Bool.or_eq_false_iff] at h
    have hk : ¬ hp.1 = k := by simpa using h.1
    rw [List.cons_append, lookupStr_cons, if_neg hk]
    exact ih h.2

theorem lookupStr_replace_self (t : List (String × String)) (k v : String)
    (h : t.any (fun p => p.1 = k) = true) :
    lookupStr (t.map (fun p => if p.1 = k then (k, v) else p)) k = some v := by
  induction t with
  | nil => simp at h
  | cons hp rest ih =>
    simp only [List.any_cons, Bool.or_eq_true] at h
    by_cases hk : hp.1 = k
    · simp only [List.map_cons, if_pos hk]
      rw [lookupStr_cons]
      simp
    · simp only [List.map_cons, if_neg hk]
      rw [lookupStr_cons, if_neg hk]
      rcases h with h | h
      · exact absurd (by simpa using h) hk
      · exact ih h

theorem lookupStr_assocSet_self (t : List (String × String)) (k v : String) :
    lookupStr (assocSet t k v) k = some v := by
  unfold assocSet
  by_cases h : t.any (fun p => p.1 = k)
  · rw [if_pos h]
    exact lookupStr_replace_self t k v h
  · rw [if_neg h]
    exact lookupStr_append_single_self t k v (Bool.eq_false_iff.mpr h)

theorem lookupStr_assocSet_ne (t : List (String × String)) (k v k' : String)
    (h : k' ≠ k) :
    lookupStr (assocSet t k v) k' = lookupStr t k' := by
  unfold assocSet
  by_cases hany : t.any (fun p => p.1 = k)
  · rw [if_pos hany]
    clear hany
    induction t with
    | nil => rfl
    | cons hp rest ih =>
      by_cases hk : hp.1 = k
      · simp only [List.map_cons, if_pos hk]
        rw [lookupStr_cons, lookupStr_cons]
        rw [show ((k, v) : String × String).1 = k from rfl]
        rw [if_neg (Ne.symm h), if_neg (by rw [hk]; exact Ne.symm h)]
        exact ih
      · simp only [List.map_cons, if_neg hk]
        rw [lookupStr_cons, lookupStr_cons]
        by_cases hk' : hp.1 = k'
        · rw [if_pos hk', if_pos hk']
        · rw [if_neg hk', if_neg hk']
          exact ih
  · rw [if_neg hany]
    clear hany
    induction t with
    | nil =>
      rw [List.nil_append, lookupStr_cons]
      rw [show ((k, v) : String × String).1 = k from rfl]
      rw [if_neg (Ne.symm h)]
    | cons hp rest ih =>
      rw [List.cons_append, lookupStr_cons, lookupStr_cons]
      by_cases hk' : hp.1 = k'
      · rw [if_pos hk', if_pos hk']
      · rw [if_neg hk', if_neg hk']
        exact ih

theorem lookupStr_foldl_assocSet_not_mem (vp : List (String × String))
    (t : List (String × String)) (h : String)
    (hnm : h ∉ vp.map Prod.fst) :
    lookupStr (vp.foldl (fun t hp => assocSet t hp.1 hp.2) t) h = lookupStr t h := by
  induction vp generalizing t with
  | nil => rfl
  | cons hp rest ih =>
    simp only [List.map_cons, List.mem_cons] at hnm
    push_neg at hnm
    simp only [List.foldl_cons]
    rw [ih _ hnm.2, lookupStr_assocSet_ne _ _ _ _ hnm.1]

theorem lookupStr_foldl_assocSet_mem (vp : List (String × String))
    (t : List (String × String)) (h p : String)
    (hmem : (h, p) ∈ vp) (hnd : (vp.map Prod.fst).Nodup) :
    lookupStr (vp.foldl (fun t hp => assocSet t hp.1 hp.2) t) h = some p := by
  induction vp generalizing t with
  | nil => simp at hmem
  | cons hp rest ih =>
    simp only [List.map_cons, List.nodup_cons] at hnd
    simp only [List.foldl_cons]
    rcases List.mem_cons.mp hmem with hmem | hmem
    · subst hmem
      rw [lookupStr_foldl_assocSet_not_mem rest _ h hnd.1]
      exact lookupStr_assocSet_self t h p
    · exact ih _ hmem hnd.2

theorem specFirstSeenAux_eq_specFirstSeen (l : List String) :
    ∀ seen, specFirstSeenAux seen l = specFirstSeen (l.filter (fun x => decide (x ∉ seen))) := by
  induction l with
  | nil => intro seen; simp [specFirstSeenAux, specFirstSeen]
  | cons a l ih =>
    intro seen
    by_cases ha : a ∈ seen
    · rw [specFirstSeenAux, if_pos ha, List.filter_cons, if_neg (by simpa using ha)]
      exact ih seen
    · rw [specFirstSeenAux, if_neg ha, List.filter_cons, if_pos (by simpa using ha)]
      rw [specFirstSeen]
      congr 1
      rw [ih (a :: seen)]
      congr 1
      rw [List.filter_filter]
      apply List.filter_congr
      intro x _
      by_cases hxa : x = a
      · simp [hxa]
      · by_cases hxs : x ∈ seen <;> simp [hxa, hxs]

theorem candFold_eq_flat (inp : DiscoveryInput) :
    candFold inp = (flatPairs inp).foldl (candStep inp) (table0 inp, [], []) := by
  unfold candFold flatPairs
  generalize (table0 inp, ([] : List String), ([] : List String)) = acc
  induction inp.candidates generalizing acc with
  | nil => rfl
  | cons p rest ih =>
    rw [List.foldl_cons, List.flatMap_cons, List.foldl_append]
    exact ih _

theorem candStep_table_preserves (inp : DiscoveryInput)
    (pairs : List (String × String))
    (acc : List (String × String) × List String × List String) (h p : String)
    (hl : lookupStr acc.1 h = some p) :
    lookupStr ((pairs.foldl (candStep inp) acc)).1 h = some p := by
  induction pairs generalizing acc with
  | nil => exact hl
  | cons ph rest ih =>
    rw [List.foldl_cons]
    apply ih
    unfold candStep
    have htab : lookupStr
        (if ph.2 ∈ knownHashes inp ∧ lookupStr acc.1 ph.2 = none then
          assocSet acc.1 ph.2 ph.1
        else acc.1) h = some p := by
      by_cases hc : ph.2 ∈ knownHashes inp ∧ lookupStr acc.1 ph.2 = none
      · rw [if_pos hc]
        have hne : h ≠ ph.2 := by
          intro heq
          rw [← heq] at hc
          rw [hl] at hc
          exact absurd hc.2 (by simp)
        rw [lookupStr_assocSet_ne _ _ _ _ hne]
        exact hl
      · rw [if_neg hc]
        exact hl
    by_cases ho : ph.2 ∈ knownHashes inp ∧ ph.2 ∉ acc.2.2
    · rw [if_pos ho]
      exact htab
    · rw [if_neg ho]
      exact htab

theorem candStep_ordered_spec (inp : DiscoveryInput)
    (pairs : List (String × String))
    (acc : List (String × String) × List String × List String)
    (hinv : ∀ x, x ∈ acc.2.2 ↔ x ∈ acc.2.1) :
    (pairs.foldl (candStep inp) acc).2.1
      = acc.2.1 ++ specFirstSeenAux acc.2.2
          ((pairs.map Prod.snd).filter (fun h => decide (h ∈ knownHashes inp))) ∧
    (∀ x, x ∈ (pairs.foldl (candStep inp) acc).2.2
      ↔ x ∈ (pairs.foldl (candStep inp) acc).2.1) := by
  induction pairs generalizing acc with
  | nil => exact ⟨by simp [specFirstSeenAux], hinv⟩
  | cons ph rest ih =>
    rw [List.foldl_cons, List.map_cons, List.filter_cons]
    by_cases hk : ph.2 ∈ knownHashes inp
    · rw [if_pos (by simpa using hk)]
      by_cases hs : ph.2 ∉ acc.2.2
      · have hstep : candStep inp acc ph
            = (if ph.2 ∈ knownHashes inp ∧ lookupStr acc.1 ph.2 = none then
                 assocSet acc.1 ph.2 ph.1
               else acc.1,
               acc.2.1 ++ [ph.2], ph.2 :: acc.2.2) := by
          unfold candStep
          rw [if_pos ⟨hk, hs⟩]
        rw [hstep]
        obtain ⟨h1, h2⟩ := ih
          (if ph.2 ∈ knownHashes inp ∧ lookupStr acc.1 ph.2 = none then
             assocSet acc.1 ph.2 ph.1
           else acc.1,
           acc.2.1 ++ [ph.2], ph.2 :: acc.2.2)
          (by
            intro x
            dsimp only
            simp only [List.mem_cons, List.mem_append, List.mem_singleton]
            rw [hinv x]
            tauto)
        refine ⟨?_, h2⟩
        rw [h1]
        dsimp only
        rw [specFirstSeenAux, if_neg hs]
        simp [List.append_assoc]
      · push_neg at hs
        have hstep : candStep inp acc ph
            = (if ph.2 ∈ knownHashes inp ∧ lookupStr acc.1 ph.2 = none then
                 assocSet acc.1 ph.2 ph.1
               else acc.1,
               acc.2.1, acc.2.2) := by
          unfold candStep
          rw [if_neg (by simp [hs])]
        rw [hstep]
        obtain ⟨h1, h2⟩ := ih
          (if ph.2 ∈ knownHashes inp ∧ lookupStr acc.1 ph.2 = none then
             assocSet acc.1 ph.2 ph.1
           else acc.1,
           acc.2.1, acc.2.2)
          (by intro x; exact hinv x)
        refine ⟨?_, h2⟩
        rw [h1]
        dsimp only
        rw [specFirstSeenAux, if_pos hs]
    · rw [if_neg (by simpa using hk)]
      have hstep : candStep inp acc ph
          = (acc.1, acc.2.1, acc.2.2) := by
        unfold candStep
        rw [if_neg (by simp [hk]), if_neg (by simp [hk])]
      rw [hstep]
      exact ih _ hinv

/-- C4: in `discover_agent_workspaces`, (i) every valid persisted entry
(known bucket, recorded path an existing directory) wins in the final
hash-to-path table, even against candidate-derived paths for the same
hash; (ii) the first-seen ordering list consists exactly of the
candidate-derived known hashes, first occurrence first, with no
persisted-only hash among them; (iii) the final output lists the
candidate-ordered hashes followed by the sorted remainder, each paired
with its table lookup; (iv) the remainder is a permutation of the known
hashes not ordered by any candidate; and (v) the remainder is sorted by
bucket mtime descending, a missing bucket counting as mtime 0. -/
theorem claim_C4_discovery_ordering (inp : DiscoveryInput)
    (hnd : (inp.persisted.map Prod.fst).Nodup) :
    (∀ h p, (h, p) ∈ validPersisted inp →
        lookupStr (discoveryTable inp) h = some p) ∧
    orderedFromCandidates inp
      = specFirstSeen ((inp.candidates.flatMap inp.hashCandidates).filter
          (fun h => decide (h ∈ knownHashes inp))) ∧
    discoverAgentWorkspacesCore inp
      = (orderedFromCandidates inp ++ discoveryRemainingSorted inp).map
          (fun h => (h, lookupStr (discoveryTable inp) h)) ∧
    (discoveryRemainingSorted inp).Perm
        ((knownHashes inp).filter
          (fun h => decide (h ∉ orderedFromCandidates inp))) ∧
    (discoveryRemainingSorted inp).Pairwise
        (fun h1 h2 => discoveryKey inp h2 ≤ discoveryKey inp h1) := by
  have hndv : ((validPersisted inp).map Prod.fst).Nodup :=
    ((List.filter_sublist _).map Prod.fst).nodup hnd
  obtain ⟨hord, hseen⟩ := candStep_ordered_spec inp (flatPairs inp)
    (table0 inp, [], []) (fun x => Iff.rfl)
  have hsnd : (flatPairs inp).map Prod.snd
      = inp.candidates.flatMap inp.hashCandidates := by
    simp [flatPairs, List.map_flatMap, List.map_map]
  have hfeq : (knownHashes inp).filter (fun h => decide (h ∉ discoverySeen inp))
      = (knownHashes inp).filter (fun h => decide (h ∉ orderedFromCandidates inp)) := by
    apply List.filter_congr
    intro x _
    have hx := hseen x
    rw [← candFold_eq_flat] at hx
    show decide (x ∉ discoverySeen inp) = decide (x ∉ orderedFromCandidates inp)
    unfold discoverySeen orderedFromCandidates
    simp [hx]
  refine ⟨?_, ?_, rfl, ?_, ?_⟩
  · intro h p hmem
    unfold discoveryTable
    rw [candFold_eq_flat]
    apply candStep_table_preserves
    unfold table0
    exact lookupStr_foldl_assocSet_mem _ _ _ _ hmem hndv
  · unfold orderedFromCandidates
    rw [candFold_eq_flat, hord]
    dsimp only
    rw [hsnd, specFirstSeenAux_eq_specFirstSeen]
    simp
  · unfold discoveryRemainingSorted
    rw [hfeq]
    exact List.mergeSort_perm _ _
  · unfold discoveryRemainingSorted
    have htrans : ∀ a b c : String, discoveryLe inp a b = true →
        discoveryLe inp b c = true → discoveryLe inp a c = true := by
      intro a b c h1 h2
      unfold discoveryLe at h1 h2 ⊢
      simp only [decide_eq_true_eq] at h1 h2 ⊢
      omega
    have htotal : ∀ a b : String,
        (discoveryLe inp a b || discoveryLe inp b a) = true := by
      intro a b
      unfold discoveryLe
      simp only [Bool.or_eq_true, decide_eq_true_eq]
      omega
    have hp := List.sorted_mergeSort htrans htotal
      ((knownHashes inp).filter (fun h => decide (h ∉ discoverySeen inp)))
    refine hp.imp ?_
    intro a b hab
    simpa [discoveryLe] using hab

/-- Witness for C4: the concrete scenario, with the nodup hypothesis
discharged by evaluation. -/
theorem claim_C4_witness :
    (∀ h p, (h, p) ∈ validPersisted discoveryExample →
        lookupStr (discoveryTable discoveryExample) h = some p) ∧
    orderedFromCandidates discoveryExample
      = specFirstSeen
          ((discoveryExample.candidates.flatMap discoveryExample.hashCandidates).filter
            (fun h => decide (h ∈ knownHashes discoveryExample))) ∧
    discoverAgentWorkspacesCore discoveryExample
      = (orderedFromCandidates discoveryExample
          ++ discoveryRemainingSorted discoveryExample).map
          (fun h => (h, lookupStr (discoveryTable discoveryExample) h)) ∧
    (discoveryRemainingSorted discoveryExample).Perm
        ((knownHashes discoveryExample).filter
          (fun h => decide (h ∉ orderedFromCandidates discoveryExample))) ∧
    (discoveryRemainingSorted discoveryExample).Pairwise
        (fun h1 h2 =>
          discoveryKey discoveryExample h2 ≤ discoveryKey discoveryExample h1) :=
  claim_C4_discovery_ordering discoveryExample (by decide)

/-- Substring containment extends to the right of an append. -/
theorem listContainsSub_append_right (n l1 l2 : List Char)
    (h : listContainsSub n l2 = true) : listContainsSub n (l1 ++ l2) = true := by
  induction l1 with
  | nil => simpa using h
  | cons c t ih => simp [listContainsSub, ih]

/-- Substring containment extends to the left of an append. -/
theorem listContainsSub_append_left (n l1 l2 : List Char)
    (h : listContainsSub n l1 = true) : listContainsSub n (l1 ++ l2) = true := by
  induction l1 with
  | nil =>
    have hn : n = [] := by
      rw [listContainsSub] at h
      exact List.prefix_nil.mp (List.isPrefixOf_iff_prefix.mp h)
    subst hn
    cases l2 with
    | nil => simp [listContainsSub]
    | cons c t => simp [listContainsSub]
  | cons c t ih =>
    rw [List.cons_append, listContainsSub]
    rw [listContainsSub] at h
    simp only [Bool.or_eq_true] at h ⊢
    rcases h with hp | hr
    · have h1 : n <+: c :: t := List.isPrefixOf_iff_prefix.mp hp
      have h2 : n <+: c :: (t ++ l2) := by
        rw [← List.cons_append]
        exact h1.trans (List.prefix_append _ _)
      exact Or.inl (List.isPrefixOf_iff_prefix.mpr h2)
    · exact Or.inr (ih hr)

/-- `toList` distributes over string append. -/
theorem toList_append (a b : String) : (a ++ b).toList = a.toList ++ b.toList :=
  String.data_append a b

set_option maxRecDepth 40000 in
/-- The replacement block carries the marker, wherever it is spliced. -/
theorem pyContains_marker_patched (pre post arg : String) :
    pyContains patchMarker (pre ++ patchedBlockTemplate arg ++ post) = true := by
  unfold pyContains patchedBlockTemplate
  rw [show (pre ++ (tmplA ++ arg ++ tmplB ++ arg ++ tmplC ++ arg ++ tmplD) ++ post).toList
      = (pre.toList ++ tmplA.toList ++ arg.toList ++ tmplB.toList ++ arg.toList
          ++ tmplC.toList ++ arg.toList) ++ (tmplD.toList ++ post.toList) from by
    simp [toList_append, List.append_assoc]]
  apply listContainsSub_append_right
  apply listContainsSub_append_left
  decide

/-- Appending a suffix makes it a suffix. -/
theorem pyEndsWith_append_self (s t : String) : pyEndsWith (s ++ t) t = true := by
  unfold pyEndsWith
  rw [toList_append]
  exact List.isPrefixOf_iff_prefix.mpr
    (by rw [List.reverse_append]; exact List.prefix_append _ _)

/-- A backup file name never looks like a bundle file. -/
theorem bak_name_not_js (f : String) :
    pyEndsWith (f ++ ".ccm.bak") ".index.js" = false := by
  unfold pyEndsWith
  rw [toList_append]
  rw [show (".ccm.bak" : String).toList = ['.', 'c', 'c', 'm', '.', 'b', 'a', 'k'] from rfl]
  rw [show (".index.js" : String).toList
      = ['.', 'i', 'n', 'd', 'e', 'x', '.', 'j', 's'] from rfl]
  rw [List.isSuffixOf, List.reverse_append]
  simp [List.isPrefixOf]

/-- Right cancellation for string append. -/
theorem strAppend_cancel_right (a b c : String) (h : a ++ c = b ++ c) : a = b := by
  cases a
  cases b
  cases c
  simp only [String.ext_iff] at *
  simpa using h

/-- A key of the association list has a value. -/
theorem lookupStr_isSome_of_mem_fst (d : List (String × String)) (k : String)
    (h : k ∈ d.map Prod.fst) : (lookupStr d k).isSome := by
  induction d with
  | nil => simp at h
  | cons hp t ih =>
    rw [lookupStr_cons]
    by_cases hk : hp.1 = k
    · simp [hk]
    · rw [if_neg hk]
      simp only [List.map_cons, List.mem_cons] at h
      rcases h with h | h
      · exact absurd h.symm hk
      · exact ih h

/-- A found key is a key. -/
theorem mem_fst_of_lookupStr_some (d : List (String × String)) (k v : String)
    (h : lookupStr d k = some v) : k ∈ d.map Prod.fst := by
  induction d with
  | nil => simp [lookupStr] at h
  | cons hp t ih =>
    rw [lookupStr_cons] at h
    by_cases hk : hp.1 = k
    · simp [hk]
    · rw [if_neg hk] at h
      simp only [List.map_cons, List.mem_cons]
      exact Or.inr (ih h)

/-- A non-key looks up to `none`. -/
theorem lookupStr_none_of_not_mem_fst (d : List (String × String)) (k : String)
    (h : k ∉ d.map Prod.fst) : lookupStr d k = none := by
  cases hl : lookupStr d k with
  | none => rfl
  | some v => exact absurd (mem_fst_of_lookupStr_some d k v hl) h

/-- Setting an existing key keeps the key list. -/
theorem assocSet_fst_of_mem (d : List (String × String)) (k v : String)
    (h : k ∈ d.map Prod.fst) :
    (assocSet d k v).map Prod.fst = d.map Prod.fst := by
  unfold assocSet
  have hany : d.any (fun p => p.1 = k) = true := by
    simp only [List.any_eq_true]
    rcases List.mem_map.mp h with ⟨p, hp, hpk⟩
    exact ⟨p, hp, by simp [hpk]⟩
  rw [if_pos hany, List.map_map]
  apply List.map_congr_left
  intro p _
  by_cases hpk : p.1 = k
  · simp [hpk]
  · simp [hpk]

/-- Setting a fresh key appends it to the key list. -/
theorem assocSet_fst_of_not_mem (d : List (String × String)) (k v : String)
    (h : k ∉ d.map Prod.fst) :
    (assocSet d k v).map Prod.fst = d.map Prod.fst ++ [k] := by
  unfold assocSet
  have hany : ¬ (d.any (fun p => p.1 = k) = true) := by
    intro hc
    simp only [List.any_eq_true] at hc
    rcases hc with ⟨p, hp, hpk⟩
    exact h (List.mem_map.mpr ⟨p, hp, by simpa using hpk⟩)
  rw [if_neg hany]
  simp

theorem addRep_zero (r : PatchReport) : addRep r zeroRep = r := by
  cases r
  simp [addRep, zeroRep]

theorem addRep_assoc (a b c : PatchReport) :
    addRep (addRep a b) c = addRep a (addRep b c) := by
  simp [addRep, Nat.add_assoc, List.append_assoc]

/-- A patched outcome implies: no marker yet, a changed text, and the
marker present in the new text. -/
theorem fileNewTxt_some_facts (matcher : String → Option (String × String × String))
    (d : VDir) (f nt : String) (h : fileNewTxt matcher d f = some nt) :
    pyContains patchMarker (fileOld d f) = false ∧ nt ≠ fileOld d f ∧
      pyContains patchMarker nt = true := by
  unfold fileNewTxt at h
  dsimp only at h
  by_cases hmk : pyContains patchMarker (fileOld d f)
  · rw [if_pos hmk] at h
    simp at h
  · rw [if_neg hmk] at h
    cases hmt : matcher (fileOld d f) with
    | none => rw [hmt] at h; simp at h
    | some tr =>
      obtain ⟨pre, blk, post⟩ := tr
      rw [hmt] at h
      dsimp only at h
      cases hb : patchFetchUsableModelsBlock blk with
      | none => rw [hb] at h; simp at h
      | some nb =>
        rw [hb] at h
        dsimp only at h
        by_cases heq : pre ++ nb ++ post = fileOld d f
        · rw [if_pos heq] at h
          simp at h
        · rw [if_neg heq] at h
          have hnt : nt = pre ++ nb ++ post := (Option.some.inj h).symm
          have harg : ∃ arg, nb = patchedBlockTemplate arg := by
            unfold patchFetchUsableModelsBlock at hb
            by_cases h1 : pyContains patchMarker blk
            · rw [if_pos h1] at hb; simp at hb
            · rw [if_neg h1] at hb
              by_cases h2 : (!(pyContains "getUsableModels" blk)
                  && !(pyContains "availableModels" blk)
                  && !(pyContains "getAvailableModels" blk)) = true
              · rw [if_pos h2] at hb; simp at hb
              · rw [if_neg h2] at hb
                cases ha : extractCallArg blk with
                | none => rw [ha] at hb; simp at hb
                | some arg =>
                  rw [ha] at hb
                  exact ⟨arg, (Option.some.inj hb).symm⟩
          obtain ⟨arg, hargEq⟩ := harg
          refine ⟨Bool.eq_false_iff.mpr hmk, ?_, ?_⟩
          · rw [hnt]; exact heq
          · rw [hnt, hargEq]
            exact pyContains_marker_patched pre post arg

/-- With an honest matcher, a patched outcome implies the file exists. -/
theorem fileNewTxt_lookup_isSome (matcher : String → Option (String × String × String))
    (hm : ∀ t pre blk post, matcher t = some (pre, blk, post) → t = pre ++ blk ++ post)
    (d : VDir) (f nt : String) (h : fileNewTxt matcher d f = some nt) :
    (lookupStr d f).isSome := by
  cases hl : lookupStr d f with
  | some v => simp
  | none =>
    exfalso
    unfold fileNewTxt fileOld at h
    rw [hl] at h
    dsimp only at h
    have hmk : pyContains patchMarker "" = false := by decide
    rw [if_neg (by simp [hmk])] at h
    cases hmt : matcher ((none : Option String).getD "") with
    | none => rw [hmt] at h; simp at h
    | some tr =>
      obtain ⟨pre, blk, post⟩ := tr
      have hdec := hm _ pre blk post hmt
      have hblk : blk = "" := by
        have h0 := congrArg String.toList hdec
        rw [toList_append, toList_append] at h0
        have h1 : pre.toList ++ blk.toList ++ post.toList = ([] : List Char) := h0.symm
        have h2 : blk.toList = [] := by
          rcases List.append_eq_nil.mp h1 with ⟨h3, _⟩
          exact (List.append_eq_nil.mp h3).2
        cases blk with
        | mk dta => simp only [String.toList] at h2; rw [h2]
      rw [hmt] at h
      dsimp only at h
      rw [hblk] at h
      rw [show patchFetchUsableModelsBlock "" = none from by decide] at h
      simp at h

/-- A skipped file leaves the directory untouched and bumps exactly one
skip counter, decided by the marker. -/
theorem patchFileStep_skip (matcher : String → Option (String × String × String))
    (v f : String) (rep : PatchReport) (dcur d : VDir)
    (hag : lookupStr dcur f = lookupStr d f)
    (hn : fileNewTxt matcher d f = none) :
    patchFileStep matcher false v (rep, dcur) f
      = (⟨rep.scannedFiles + 1, rep.patchedFiles,
          rep.skippedAlreadyPatched
            + (if pyContains patchMarker (fileOld d f) then 1 else 0),
          rep.skippedNotApplicable
            + (if pyContains patchMarker (fileOld d f) then 0 else 1)⟩, dcur) := by
  unfold patchFileStep
  dsimp only
  rw [show (lookupStr dcur f).getD "" = fileOld d f from by rw [fileOld, hag]]
  unfold fileNewTxt at hn
  dsimp only at hn
  by_cases hmk : pyContains patchMarker (fileOld d f)
  · simp [hmk]
  · have hmk' : pyContains patchMarker (fileOld d f) = false := Bool.eq_false_iff.mpr hmk
    rw [if_neg hmk] at hn
    rw [if_neg hmk]
    cases hmt : matcher (fileOld d f) with
    | none => simp [hmk']
    | some tr =>
      obtain ⟨pre, blk, post⟩ := tr
      rw [hmt] at hn
      dsimp only at hn ⊢
      cases hb : patchFetchUsableModelsBlock blk with
      | none => simp [hmk']
      | some nb =>
        rw [hb] at hn
        dsimp only at hn ⊢
        by_cases heq : pre ++ nb ++ post = fileOld d f
        · rw [if_pos heq]
          simp [hmk']
        · rw [if_neg heq] at hn
          simp at hn

/-- A patched file: report gains the file, the directory gains the
backup (absent before) and the rewritten text. -/
theorem patchFileStep_patch (matcher : String → Option (String × String × String))
    (v f : String) (rep : PatchReport) (dcur d : VDir)
    (hag : lookupStr dcur f = lookupStr d f)
    (nt : String) (hn : fileNewTxt matcher d f = some nt)
    (hbk : lookupStr dcur (f ++ ".ccm.bak") = none) :
    patchFileStep matcher false v (rep, dcur) f
      = (⟨rep.scannedFiles + 1, rep.patchedFiles ++ [(v, f)],
          rep.skippedAlreadyPatched, rep.skippedNotApplicable⟩,
         assocSet (assocSet dcur (f ++ ".ccm.bak") (fileOld d f)) f nt) := by
  unfold patchFileStep
  dsimp only
  rw [show (lookupStr dcur f).getD "" = fileOld d f from by rw [fileOld, hag]]
  unfold fileNewTxt at hn
  dsimp only at hn
  by_cases hmk : pyContains patchMarker (fileOld d f)
  · rw [if_pos hmk] at hn
    simp at hn
  · rw [if_neg hmk] at hn
    rw [if_neg hmk]
    cases hmt : matcher (fileOld d f) with
    | none => rw [hmt] at hn; simp at hn
    | some tr =>
      obtain ⟨pre, blk, post⟩ := tr
      rw [hmt] at hn
      dsimp only at hn ⊢
      cases hb : patchFetchUsableModelsBlock blk with
      | none => rw [hb] at hn; simp at hn
      | some nb =>
        rw [hb] at hn
        dsimp only at hn ⊢
        by_cases heq : pre ++ nb ++ post = fileOld d f
        · rw [if_pos heq] at hn
          simp at hn
        · rw [if_neg heq] at hn
          rw [if_neg heq]
          have hnt : nt = pre ++ nb ++ post := (Option.some.inj hn).symm
          rw [if_neg (by simp : ¬ ((false : Bool) = true))]
          rw [hbk]
          rw [if_neg (by simp : ¬ ((none : Option String).isSome = true))]
          rw [hnt]

/-- A step's report contribution does not depend on the incoming
report, and its directory effect does not either. -/
theorem patchFileStep_affine (matcher : String → Option (String × String × String))
    (dr : Bool) (v f : String) (rep : PatchReport) (dir : VDir) :
    patchFileStep matcher dr v (rep, dir) f
      = (addRep rep (patchFileStep matcher dr v (zeroRep, dir) f).1,
         (patchFileStep matcher dr v (zeroRep, dir) f).2) := by
  unfold patchFileStep
  dsimp only
  by_cases hmk : pyContains patchMarker ((lookupStr dir f).getD "")
  · simp [hmk, addRep, zeroRep]
  · rw [if_neg hmk, if_neg hmk]
    cases hmt : matcher ((lookupStr dir f).getD "") with
    | none => simp [addRep, zeroRep]
    | some tr =>
      obtain ⟨pre, blk, post⟩ := tr
      dsimp only
      cases hb : patchFetchUsableModelsBlock blk with
      | none => simp [addRep, zeroRep]
      | some nb =>
        dsimp only
        by_cases heq : pre ++ nb ++ post = (lookupStr dir f).getD ""
        · rw [if_pos heq, if_pos heq]
          simp [addRep, zeroRep]
        · rw [if_neg heq, if_neg heq]
          by_cases hdr : dr = true
        
          · rw [if_pos hdr, if_pos hdr]
            simp [addRep, zeroRep]
          · rw [if_neg hdr, if_neg hdr]
            dsimp only
            simp [addRep, zeroRep]

/-- The whole file fold is the fresh-report fold, rebased. -/
theorem fileFold_affine (matcher : String → Option (String × String × String))
    (dr : Bool) (v : String) (L : List String) (rep : PatchReport) (dir : VDir) :
    L.foldl (patchFileStep matcher dr v) (rep, dir)
      = (addRep rep (L.foldl (patchFileStep matcher dr v) (zeroRep, dir)).1,
         (L.foldl (patchFileStep matcher dr v) (zeroRep, dir)).2) := by
  induction L generalizing rep dir with
  | nil => simp [addRep_zero]
  | cons f t ih =>
    rw [List.foldl_cons, List.foldl_cons]
    rw [patchFileStep_affine matcher dr v f rep dir]
    rcases hstep : patchFileStep matcher dr v (zeroRep, dir) f with ⟨r1, d1⟩
    dsimp only
    rw [ih (addRep rep r1) d1, ih r1 d1]
    simp [addRep_assoc]

/-- `patchVersionDir` in terms of the per-dir fresh-report run. -/
theorem patchVersionDir_eq (matcher : String → Option (String × String × String))
    (dr : Bool) (rep : PatchReport) (vd : String × VDir) :
    patchVersionDir matcher dr rep vd
      = (addRep rep (dirRunRep matcher dr vd), (vd.1, dirRunOut matcher dr vd)) := by
  unfold patchVersionDir dirRunRep dirRunOut
  dsimp only
  rw [fileFold_affine]

/-- The outer fold: reports accumulate, outputs append in order. -/
theorem topFold_char (matcher : String → Option (String × String × String))
    (dr : Bool) (dirs : List (String × VDir)) (rep0 : PatchReport)
    (out0 : List (String × VDir)) :
    dirs.foldl (fun acc vd =>
        let r := patchVersionDir matcher dr acc.1 vd
        (r.1, acc.2 ++ [r.2])) (rep0, out0)
      = (dirs.foldl (fun r vd => addRep r (dirRunRep matcher dr vd)) rep0,
         out0 ++ dirs.map (fun vd => (vd.1, dirRunOut matcher dr vd))) := by
  induction dirs generalizing rep0 out0 with
  | nil => simp
  | cons vd t ih =>
    rw [List.foldl_cons, List.foldl_cons]
    dsimp only
    rw [patchVersionDir_eq]
    rw [ih]
    simp

/-- A bundle file name is never a backup name. -/
theorem js_ne_bak (a b : String) (ha : pyEndsWith a ".index.js" = true) :
    a ≠ b ++ ".ccm.bak" := by
  intro he
  rw [he, bak_name_not_js b] at ha
  simp at ha

/-- Backup naming is injective. -/
theorem bak_ne_bak (a b : String) (h : a ≠ b) :
    a ++ ".ccm.bak" ≠ b ++ ".ccm.bak" :=
  fun he => h (strAppend_cancel_right a b _ he)

/-- First run over one version directory: the report lists exactly the
patchable files in scan order, the already-patched counter counts the
marker-bearing files, every patched file ends with its new text and a
backup holding the old text, every skipped file keeps its text, the
bundle-file name list survives, and names away from the written ones
keep their values. -/
theorem dirFold_run1 (matcher : String → Option (String × String × String))
    (v : String) (d : VDir) (L : List String) (rep : PatchReport) (dcur : VDir)
    (hnd : L.Nodup)
    (hjs : ∀ f ∈ L, pyEndsWith f ".index.js" = true)
    (hag : ∀ f ∈ L, lookupStr dcur f = lookupStr d f)
    (hbk : ∀ f ∈ L, (fileNewTxt matcher d f).isSome →
        lookupStr dcur (f ++ ".ccm.bak") = none)
    (hkey : ∀ f ∈ L, (fileNewTxt matcher d f).isSome → f ∈ dcur.map Prod.fst) :
    (L.foldl (patchFileStep matcher false v) (rep, dcur)).1.patchedFiles
      = rep.patchedFiles
        ++ (L.filter (fun f => (fileNewTxt matcher d f).isSome)).map (fun f => (v, f)) ∧
    (L.foldl (patchFileStep matcher false v) (rep, dcur)).1.skippedAlreadyPatched
      = rep.skippedAlreadyPatched
        + (L.filter (fun f => pyContains patchMarker (fileOld d f))).length ∧
    (∀ f ∈ L, ∀ nt, fileNewTxt matcher d f = some nt →
        lookupStr (L.foldl (patchFileStep matcher false v) (rep, dcur)).2 f = some nt ∧
        lookupStr (L.foldl (patchFileStep matcher false v) (rep, dcur)).2
            (f ++ ".ccm.bak") = some (fileOld d f)) ∧
    (∀ f ∈ L, fileNewTxt matcher d f = none →
        lookupStr (L.foldl (patchFileStep matcher false v) (rep, dcur)).2 f
          = lookupStr d f) ∧
    (((L.foldl (patchFileStep matcher false v) (rep, dcur)).2.map Prod.fst).filter
        (fun n => pyEndsWith n ".index.js")
      = (dcur.map Prod.fst).filter (fun n => pyEndsWith n ".index.js")) ∧
    (∀ n, (∀ f ∈ L, n ≠ f ∧ n ≠ f ++ ".ccm.bak") →
        lookupStr (L.foldl (patchFileStep matcher false v) (rep, dcur)).2 n
          = lookupStr dcur n) := by
  revert rep dcur hnd hjs hag hbk hkey
  induction L with
  | nil =>
    intro rep dcur _ _ _ _ _
    simp
  | cons f t ih =>
    intro rep dcur hnd hjs hag hbk hkey
    obtain ⟨hndf, hndt⟩ := List.nodup_cons.mp hnd
    have hagf := hag f (List.mem_cons_self f t)
    have hjsf := hjs f (List.mem_cons_self f t)
    have hside : ∀ g ∈ t, f ≠ g ∧ f ≠ g ++ ".ccm.bak" := by
      intro g hg
      refine ⟨fun he => hndf (he ▸ hg), js_ne_bak f g hjsf⟩
    rw [List.foldl_cons]
    cases hcl : fileNewTxt matcher d f with
    | none =>
      rw [patchFileStep_skip matcher v f rep dcur d hagf hcl]
      obtain ⟨ih1, ih2, ih3, ih4, ih5, ih6⟩ :=
        ih ⟨rep.scannedFiles + 1, rep.patchedFiles,
            rep.skippedAlreadyPatched
              + (if pyContains patchMarker (fileOld d f) then 1 else 0),
            rep.skippedNotApplicable
              + (if pyContains patchMarker (fileOld d f) then 0 else 1)⟩ dcur
          hndt
          (fun g hg => hjs g (List.mem_cons_of_mem f hg))
          (fun g hg => hag g (List.mem_cons_of_mem f hg))
          (fun g hg hs => hbk g (List.mem_cons_of_mem f hg) hs)
          (fun g hg hs => hkey g (List.mem_cons_of_mem f hg) hs)
      refine ⟨?_, ?_, ?_, ?_, ih5, ?_⟩
      · rw [ih1]
        dsimp only
        rw [List.filter_cons, if_neg (by simp [hcl])]
      · rw [ih2]
        dsimp only
        rw [List.filter_cons]
        by_cases hmk : pyContains patchMarker (fileOld d f)
        · rw [if_pos (by simp [hmk]), if_pos hmk]
          simp only [List.length_cons]
          omega
        · rw [if_neg (by simp [hmk]), if_neg hmk]
          omega
      · intro g hg nt hgnt
        rcases List.mem_cons.mp hg with hgf | hgt
        · subst hgf
          rw [hcl] at hgnt
          cases hgnt
        · exact ih3 g hgt nt hgnt
      · intro g hg hgn
        rcases List.mem_cons.mp hg with hgf | hgt
        · subst hgf
          rw [ih6 g hside]
          exact hagf
        · exact ih4 g hgt hgn
      · intro n hn
        exact ih6 n (fun g hg => hn g (List.mem_cons_of_mem f hg))
    | some nt0 =>
      have hbkf := hbk f (List.mem_cons_self f t) (by simp [hcl])
      have hkeyf := hkey f (List.mem_cons_self f t) (by simp [hcl])
      have hbmem : (f ++ ".ccm.bak") ∉ dcur.map Prod.fst := by
        intro hc
        have h1 := lookupStr_isSome_of_mem_fst dcur _ hc
        rw [hbkf] at h1
        simp at h1
      have hd2fst :
          (assocSet (assocSet dcur (f ++ ".ccm.bak") (fileOld d f)) f nt0).map Prod.fst
            = dcur.map Prod.fst ++ [f ++ ".ccm.bak"] := by
        rw [assocSet_fst_of_mem _ _ _
            (by rw [assocSet_fst_of_not_mem _ _ _ hbmem]
                exact List.mem_append_left _ hkeyf),
          assocSet_fst_of_not_mem _ _ _ hbmem]
      rw [patchFileStep_patch matcher v f rep dcur d hagf nt0 hcl hbkf]
      obtain ⟨ih1, ih2, ih3, ih4, ih5, ih6⟩ :=
        ih ⟨rep.scannedFiles + 1, rep.patchedFiles ++ [(v, f)],
            rep.skippedAlreadyPatched, rep.skippedNotApplicable⟩
          (assocSet (assocSet dcur (f ++ ".ccm.bak") (fileOld d f)) f nt0)
          hndt
          (fun g hg => hjs g (List.mem_cons_of_mem f hg))
          (fun g hg => by
            have hgf : g ≠ f := fun he => hndf (he ▸ hg)
            have hgb : g ≠ f ++ ".ccm.bak" :=
              js_ne_bak g f (hjs g (List.mem_cons_of_mem f hg))
            rw [lookupStr_assocSet_ne _ _ _ _ hgf, lookupStr_assocSet_ne _ _ _ _ hgb]
            exact hag g (List.mem_cons_of_mem f hg))
          (fun g hg hs => by
            have h1 : g ++ ".ccm.bak" ≠ f :=
              fun he => by
                have := hjsf
                rw [← he, bak_name_not_js g] at this
                simp at this
            have h2 : g ++ ".ccm.bak" ≠ f ++ ".ccm.bak" :=
              bak_ne_bak g f (fun he => hndf (he ▸ hg))
            rw [lookupStr_assocSet_ne _ _ _ _ h1, lookupStr_assocSet_ne _ _ _ _ h2]
            exact hbk g (List.mem_cons_of_mem f hg) hs)
          (fun g hg hs => by
            rw [hd2fst]
            exact List.mem_append_left _ (hkey g (List.mem_cons_of_mem f hg) hs))
      refine ⟨?_, ?_, ?_, ?_, ?_, ?_⟩
      · rw [ih1]
        dsimp only
        rw [List.filter_cons, if_pos (by simp [hcl])]
        simp
      · rw [ih2]
        dsimp only
        rw [List.filter_cons,
          if_neg (by simp [(fileNewTxt_some_facts matcher d f nt0 hcl).1])]
      · intro g hg nt hgnt
        rcases List.mem_cons.mp hg with hgf | hgt
        · subst hgf
          have hnteq : nt = nt0 := by
            rw [hcl] at hgnt
            exact (Option.some.inj hgnt).symm
          subst hnteq
          constructor
          · rw [ih6 g hside]
            exact lookupStr_assocSet_self _ _ _
          · have hsideb : ∀ g2 ∈ t, g ++ ".ccm.bak" ≠ g2
                ∧ g ++ ".ccm.bak" ≠ g2 ++ ".ccm.bak" := by
              intro g2 hg2
              refine ⟨?_, bak_ne_bak g g2 (fun he => hndf (he ▸ hg2))⟩
              intro he
              have h3 := hjs g2 (List.mem_cons_of_mem g hg2)
              rw [← he, bak_name_not_js g] at h3
              simp at h3
            rw [ih6 (g ++ ".ccm.bak") hsideb]
            rw [lookupStr_assocSet_ne _ _ _ _
              (fun he => (js_ne_bak g g hjsf) he.symm)]
            exact lookupStr_assocSet_self _ _ _
        · exact ih3 g hgt nt hgnt
      · intro g hg hgn
        rcases List.mem_cons.mp hg with hgf | hgt
        · subst hgf
          rw [hcl] at hgn
          cases hgn
        · exact ih4 g hgt hgn
      · rw [ih5, hd2fst, List.filter_append]
        simp [bak_name_not_js]
      · intro n hn
        have hnf := hn f (List.mem_cons_self f t)
        rw [ih6 n (fun g hg => hn g (List.mem_cons_of_mem f hg))]
        rw [lookupStr_assocSet_ne _ _ _ _ hnf.1, lookupStr_assocSet_ne _ _ _ _ hnf.2]

/-- Second run over a directory in which no file is patchable: the
directory is untouched, nothing is patched, and the two skip counters
split the files by marker. -/
theorem dirFold_run2 (matcher : String → Option (String × String × String))
    (v : String) (d : VDir) (L : List String) (rep : PatchReport)
    (hnone : ∀ f ∈ L, fileNewTxt matcher d f = none) :
    L.foldl (patchFileStep matcher false v) (rep, d)
      = (⟨rep.scannedFiles + L.length, rep.patchedFiles,
          rep.skippedAlreadyPatched
            + (L.filter (fun f => pyContains patchMarker (fileOld d f))).length,
          rep.skippedNotApplicable
            + (L.filter (fun f => !(pyContains patchMarker (fileOld d f)))).length⟩,
         d) := by
  revert rep hnone
  induction L with
  | nil =>
    intro rep _
    cases rep
    simp
  | cons f t ih =>
    intro rep hnone
    rw [List.foldl_cons]
    rw [patchFileStep_skip matcher v f rep d d rfl (hnone f (List.mem_cons_self f t))]
    rw [ih _ (fun g hg => hnone g (List.mem_cons_of_mem f hg))]
    rw [List.filter_cons, List.filter_cons]
    by_cases hmk : pyContains patchMarker (fileOld d f)
    · simp [hmk]
      all_goals omega
    · simp [hmk]
      all_goals omega

/-- Filter length splits over a pointwise disjoint disjunction. -/
theorem length_filter_or_disjoint (L : List α) (p q r : α → Bool)
    (h : ∀ x ∈ L, r x = (p x || q x) ∧ ¬(p x = true ∧ q x = true)) :
    (L.filter r).length = (L.filter p).length + (L.filter q).length := by
  induction L with
  | nil => simp
  | cons a t ih =>
    obtain ⟨hr, hdis⟩ := h a (List.mem_cons_self a t)
    have iht := ih (fun x hx => h x (List.mem_cons_of_mem a hx))
    rw [List.filter_cons, List.filter_cons, List.filter_cons]
    by_cases hp : p a = true
    · have hq : ¬ (q a = true) := fun hq => hdis ⟨hp, hq⟩
      rw [if_pos (by rw [hr, hp]; simp), if_pos hp,
        if_neg hq]
      simp only [List.length_cons]
      omega
    · by_cases hq : q a = true
      · rw [if_pos (by rw [hr, hq]; simp), if_neg hp, if_pos hq]
        simp only [List.length_cons]
        omega
      · rw [if_neg (by
          rw [hr, Bool.eq_false_iff.mpr hp, Bool.eq_false_iff.mpr hq]
          simp), if_neg hp, if_neg hq]
        exact iht

/-- The accumulated report's patched list is the concatenation of the
per-item patched lists. -/
theorem foldl_addRep_patched (S : List α) (F : α → PatchReport) (r0 : PatchReport) :
    (S.foldl (fun r x => addRep r (F x)) r0).patchedFiles
      = r0.patchedFiles ++ S.flatMap (fun x => (F x).patchedFiles) := by
  induction S generalizing r0 with
  | nil => simp
  | cons x t ih =>
    rw [List.foldl_cons, ih]
    simp [addRep]

/-- Running two accumulations in step: if each second-run item patches
nothing and its already-skipped counter absorbs the first run's patch
count, the totals do the same. -/
theorem foldl_addRep_pair (S : List α) (F G : α → PatchReport)
    (hFG : ∀ x ∈ S, (G x).patchedFiles = []
        ∧ (G x).skippedAlreadyPatched
            = (F x).skippedAlreadyPatched + (F x).patchedFiles.length) :
    ∀ r1 r2 : PatchReport,
      r2.patchedFiles = [] →
      r2.skippedAlreadyPatched = r1.skippedAlreadyPatched + r1.patchedFiles.length →
      (S.foldl (fun r x => addRep r (G x)) r2).patchedFiles = [] ∧
      (S.foldl (fun r x => addRep r (G x)) r2).skippedAlreadyPatched
        = (S.foldl (fun r x => addRep r (F x)) r1).skippedAlreadyPatched
          + (S.foldl (fun r x => addRep r (F x)) r1).patchedFiles.length := by
  induction S with
  | nil =>
    intro r1 r2 hp ha
    simp only [List.foldl_nil]
    exact ⟨hp, ha⟩
  | cons x t ih =>
    intro r1 r2 hp ha
    obtain ⟨hgx, hax⟩ := hFG x (List.mem_cons_self x t)
    rw [List.foldl_cons, List.foldl_cons]
    apply ih (fun y hy => hFG y (List.mem_cons_of_mem x hy))
    · simp [addRep, hp, hgx]
    · simp [addRep, hax, ha]
      omega

/-- Both runs over one version directory: the first run's report lists
the patchable files and installs text plus backup for each; rerunning on
the result patches nothing, counts every previously patched file as
already patched, and leaves the files unchanged. -/
theorem dirPackage (matcher : String → Option (String × String × String))
    (vd : String × VDir)
    (hnd : ((vd.2).map Prod.fst).Nodup)
    (hnb : ∀ n ∈ (vd.2).map Prod.fst, pyEndsWith n ".ccm.bak" = false) :
    (dirRunRep matcher false vd).patchedFiles
      = ((dirJsFiles vd.2).filter
          (fun f => (fileNewTxt matcher vd.2 f).isSome)).map (fun f => (vd.1, f)) ∧
    (∀ f ∈ dirJsFiles vd.2, ∀ nt, fileNewTxt matcher vd.2 f = some nt →
        lookupStr (dirRunOut matcher false vd) f = some nt ∧
        lookupStr (dirRunOut matcher false vd) (f ++ ".ccm.bak")
          = some (fileOld vd.2 f)) ∧
    (dirRunRep matcher false (vd.1, dirRunOut matcher false vd)).patchedFiles = [] ∧
    (dirRunRep matcher false (vd.1, dirRunOut matcher false vd)).skippedAlreadyPatched
      = (dirRunRep matcher false vd).skippedAlreadyPatched
        + (dirRunRep matcher false vd).patchedFiles.length ∧
    dirRunOut matcher false (vd.1, dirRunOut matcher false vd)
      = dirRunOut matcher false vd := by
  have hLnd : (dirJsFiles vd.2).Nodup :=
    ((List.mergeSort_perm _ _).nodup_iff).mpr (hnd.filter _)
  have hLjs : ∀ f ∈ dirJsFiles vd.2, pyEndsWith f ".index.js" = true := by
    intro f hf
    exact (List.mem_filter.mp (List.mem_mergeSort.mp hf)).2
  have hLmem : ∀ f ∈ dirJsFiles vd.2, f ∈ vd.2.map Prod.fst := by
    intro f hf
    exact (List.mem_filter.mp (List.mem_mergeSort.mp hf)).1
  have hbkL : ∀ f ∈ dirJsFiles vd.2, (fileNewTxt matcher vd.2 f).isSome →
      lookupStr vd.2 (f ++ ".ccm.bak") = none := by
    intro f _ _
    apply lookupStr_none_of_not_mem_fst
    intro hc
    have h1 := hnb _ hc
    rw [pyEndsWith_append_self f ".ccm.bak"] at h1
    simp at h1
  obtain ⟨p1, p2, p3, p4, p5, p6⟩ :=
    dirFold_run1 matcher vd.1 vd.2 (dirJsFiles vd.2) zeroRep vd.2
      hLnd hLjs (fun f _ => rfl) hbkL (fun f hf _ => hLmem f hf)
  have hL1 : dirJsFiles (dirRunOut matcher false vd) = dirJsFiles vd.2 := by
    unfold dirJsFiles dirRunOut
    congr 1
  have hnone1 : ∀ f ∈ dirJsFiles vd.2,
      fileNewTxt matcher (dirRunOut matcher false vd) f = none := by
    intro f hf
    cases hcl : fileNewTxt matcher vd.2 f with
    | some nt =>
      obtain ⟨hlf, _⟩ := p3 f hf nt hcl
      have hfo : fileOld (dirRunOut matcher false vd) f = nt := by
        unfold fileOld dirRunOut
        rw [hlf]
        rfl
      unfold fileNewTxt
      dsimp only
      rw [hfo]
      rw [if_pos (fileNewTxt_some_facts matcher vd.2 f nt hcl).2.2]
    | none =>
      have hfo : fileOld (dirRunOut matcher false vd) f = fileOld vd.2 f := by
        unfold fileOld dirRunOut
        rw [p4 f hf hcl]
      unfold fileNewTxt at hcl ⊢
      dsimp only at hcl ⊢
      rw [hfo]
      exact hcl
  have hrun2 := dirFold_run2 matcher vd.1 (dirRunOut matcher false vd)
    (dirJsFiles vd.2) zeroRep hnone1
  have hcount :
      ((dirJsFiles vd.2).filter
        (fun f => pyContains patchMarker (fileOld (dirRunOut matcher false vd) f))).length
      = ((dirJsFiles vd.2).filter
          (fun f => pyContains patchMarker (fileOld vd.2 f))).length
        + ((dirJsFiles vd.2).filter
            (fun f => (fileNewTxt matcher vd.2 f).isSome)).length := by
    apply length_filter_or_disjoint
    intro f hf
    cases hcl : fileNewTxt matcher vd.2 f with
    | some nt =>
      obtain ⟨hlf, _⟩ := p3 f hf nt hcl
      obtain ⟨hmk0, _, hmkn⟩ := fileNewTxt_some_facts matcher vd.2 f nt hcl
      have hfo : fileOld (dirRunOut matcher false vd) f = nt := by
        unfold fileOld dirRunOut
        rw [hlf]
        rfl
      refine ⟨?_, ?_⟩
      · rw [hfo, hmkn, hmk0]
        simp [hcl]
      · intro hc
        rw [hmk0] at hc
        exact absurd hc.1 (by simp)
    | none =>
      have hfo : fileOld (dirRunOut matcher false vd) f = fileOld vd.2 f := by
        unfold fileOld dirRunOut
        rw [p4 f hf hcl]
      refine ⟨?_, ?_⟩
      · rw [hfo]
        simp [hcl]
      · intro hc
        have := hc.2
        simp [hcl] at this
  refine ⟨?_, ?_, ?_, ?_, ?_⟩
  · unfold dirRunRep
    rw [p1]
    rfl
  · intro f hf nt hnt
    exact p3 f hf nt hnt
  · unfold dirRunRep
    dsimp only
    rw [hL1, hrun2]
    rfl
  · unfold dirRunRep
    dsimp only
    rw [hL1, hrun2, p1, p2]
    dsimp only
    rw [hcount]
    simp [zeroRep]
  · show (List.foldl (patchFileStep matcher false vd.1)
        (zeroRep, dirRunOut matcher false vd)
        (dirJsFiles (dirRunOut matcher false vd))).2 = dirRunOut matcher false vd
    rw [hL1, hrun2]

/-- C5: running `patch_cursor_agent_models` twice over the same versions
directory (with a matcher that honestly decomposes the text around the
`fetchUsableModels` block, per-directory unique file names, and no
pre-existing `.ccm.bak` files): every file patched by the first run ends
up with its new marker-bearing text and, written exactly once, a backup
holding the unmodified pre-patch text; the second run patches zero
files, counts every previously patched file as already patched on top of
the first run's count, and changes no file. -/
theorem claim_C5_patch_twice
    (matcher : String → Option (String × String × String))
    (hm : ∀ t pre blk post, matcher t = some (pre, blk, post) → t = pre ++ blk ++ post)
    (fs : List (String × VDir))
    (hnd : ∀ vd ∈ fs, ((vd.2).map Prod.fst).Nodup)
    (hnb : ∀ vd ∈ fs, ∀ n ∈ (vd.2).map Prod.fst, pyEndsWith n ".ccm.bak" = false)
    (rep1 : PatchReport) (fs1 : List (String × VDir))
    (h1 : patchCursorAgentModels matcher false fs = (rep1, fs1))
    (rep2 : PatchReport) (fs2 : List (String × VDir))
    (h2 : patchCursorAgentModels matcher false fs1 = (rep2, fs2)) :
    (∀ v f, (v, f) ∈ rep1.patchedFiles →
        ∃ d0 d1 told tnew, (v, d0) ∈ fs ∧ (v, d1) ∈ fs1 ∧
          lookupStr d0 f = some told ∧
          lookupStr d1 f = some tnew ∧
          lookupStr d1 (f ++ ".ccm.bak") = some told ∧
          pyContains patchMarker tnew = true ∧ tnew ≠ told) ∧
    rep2.patchedFiles = [] ∧
    rep2.skippedAlreadyPatched
      = rep1.skippedAlreadyPatched + rep1.patchedFiles.length ∧
    fs2 = fs1 := by
  unfold patchCursorAgentModels at h1
  rw [topFold_char] at h1
  rw [Prod.mk.injEq] at h1
  obtain ⟨hrep1, hfs1⟩ := h1
  simp only [List.nil_append] at hfs1
  have hpack := fun vd (hv : vd ∈ fs.mergeSort (fun a b => decide (a.1 ≤ b.1))) =>
    dirPackage matcher vd (hnd vd (List.mem_mergeSort.mp hv))
      (hnb vd (List.mem_mergeSort.mp hv))
  have hsortS : (fs.mergeSort (fun a b => decide (a.1 ≤ b.1))).Pairwise
      (fun a b => (decide (a.1 ≤ b.1)) = true) :=
    List.sorted_mergeSort
      (by
        intro a b c hab hbc
        simp only [decide_eq_true_eq] at hab hbc ⊢
        exact le_trans hab hbc)
      (by
        intro a b
        simp only [Bool.or_eq_true, decide_eq_true_eq]
        exact le_total a.1 b.1)
      fs
  have hsort1 : fs1.Pairwise (fun a b => (decide (a.1 ≤ b.1)) = true) := by
    rw [← hfs1]
    exact List.pairwise_map.mpr hsortS
  unfold patchCursorAgentModels at h2
  rw [List.mergeSort_of_sorted hsort1] at h2
  rw [topFold_char] at h2
  rw [Prod.mk.injEq] at h2
  obtain ⟨hrep2, hfs2⟩ := h2
  simp only [List.nil_append] at hfs2
  rw [← hfs1] at hrep2 hfs2
  rw [List.foldl_map] at hrep2
  rw [List.map_map] at hfs2
  refine ⟨?_, ?_, ?_, ?_⟩
  · intro v f hvf
    rw [← hrep1, foldl_addRep_patched] at hvf
    have hvf' : (v, f) ∈ (fs.mergeSort (fun a b => decide (a.1 ≤ b.1))).flatMap
        (fun vd => (dirRunRep matcher false vd).patchedFiles) := by
      simpa using hvf
    rw [List.mem_flatMap] at hvf'
    obtain ⟨vd, hvdS, hin⟩ := hvf'
    rw [(hpack vd hvdS).1, List.mem_map] at hin
    obtain ⟨f0, hf0, hpair⟩ := hin
    rw [Prod.mk.injEq] at hpair
    obtain ⟨hv1, hf1⟩ := hpair
    subst hf1
    have hfL : f0 ∈ dirJsFiles vd.2 := (List.mem_filter.mp hf0).1
    have hfsome : (fileNewTxt matcher vd.2 f0).isSome = true :=
      (List.mem_filter.mp hf0).2
    obtain ⟨nt, hnt⟩ := Option.isSome_iff_exists.mp hfsome
    obtain ⟨hlf, hlb⟩ := (hpack vd hvdS).2.1 f0 hfL nt hnt
    have hkey : f0 ∈ vd.2.map Prod.fst :=
      (List.mem_filter.mp (List.mem_mergeSort.mp hfL)).1
    obtain ⟨told, htold⟩ :=
      Option.isSome_iff_exists.mp (lookupStr_isSome_of_mem_fst vd.2 f0 hkey)
    have hfold : fileOld vd.2 f0 = told := by
      unfold fileOld
      rw [htold]
      rfl
    refine ⟨vd.2, dirRunOut matcher false vd, told, nt, ?_, ?_, htold, ?_, ?_, ?_, ?_⟩
    · rw [← hv1]
      exact List.mem_mergeSort.mp hvdS
    · rw [← hfs1, ← hv1]
      exact List.mem_map.mpr ⟨vd, hvdS, rfl⟩
    · exact hlf
    · rw [← hfold]
      exact hlb
    · exact (fileNewTxt_some_facts matcher vd.2 f0 nt hnt).2.2
    · rw [← hfold]
      exact (fileNewTxt_some_facts matcher vd.2 f0 nt hnt).2.1
  · have hpair := foldl_addRep_pair (fs.mergeSort (fun a b => decide (a.1 ≤ b.1)))
      (fun vd => dirRunRep matcher false vd)
      (fun vd => dirRunRep matcher false (vd.1, dirRunOut matcher false vd))
      (fun vd hv => ⟨(hpack vd hv).2.2.1, (hpack vd hv).2.2.2.1⟩)
      ⟨0, [], 0, 0⟩ ⟨0, [], 0, 0⟩ rfl (by simp)
    rw [← hrep2]
    exact hpair.1
  · have hpair := foldl_addRep_pair (fs.mergeSort (fun a b => decide (a.1 ≤ b.1)))
      (fun vd => dirRunRep matcher false vd)
      (fun vd => dirRunRep matcher false (vd.1, dirRunOut matcher false vd))
      (fun vd hv => ⟨(hpack vd hv).2.2.1, (hpack vd hv).2.2.2.1⟩)
      ⟨0, [], 0, 0⟩ ⟨0, [], 0, 0⟩ rfl (by simp)
    rw [← hrep2, ← hrep1]
    exact hpair.2
  · rw [← hfs2, ← hfs1]
    apply List.map_congr_left
    intro vd hvd
    rw [Prod.mk.injEq]
    exact ⟨rfl, (hpack vd hvd).2.2.2.2⟩

/-- `toList` is injective. -/
theorem toList_inj (a b : String) (h : a.toList = b.toList) : a = b := by
  rw [String.ext_iff]
  exact h

/-- Splicing into empty surroundings is the identity. -/
theorem empty_append_empty (s : String) : "" ++ s ++ "" = s :=
  toList_inj _ _ (by
    rw [toList_append, toList_append,
      show ("" : String).toList = [] from rfl]
    simp)

/-- `patchVersionDir` with its file list computed. -/
theorem patchVersionDir_eq_files (matcher : String → Option (String × String × String))
    (dr : Bool) (rep : PatchReport) (vd : String × VDir) (L : List String)
    (hL : dirJsFiles vd.2 = L) :
    patchVersionDir matcher dr rep vd
      = ((L.foldl (patchFileStep matcher dr vd.1) (rep, vd.2)).1,
         (vd.1, (L.foldl (patchFileStep matcher dr vd.1) (rep, vd.2)).2)) := by
  unfold patchVersionDir
  rw [hL]

/-- Witness for C5: the two-run theorem applied to the one-file tree;
both run equations are derived by rewriting (the replacement block is
kept symbolic). -/
theorem claim_C5_witness :
    (∀ v f, (v, f) ∈ ((⟨1, [("1.0", "app.index.js")], 0, 0⟩ : PatchReport)).patchedFiles →
        ∃ d0 d1 told tnew, (v, d0) ∈ sampleFs ∧ (v, d1) ∈ sampleFs1 ∧
          lookupStr d0 f = some told ∧
          lookupStr d1 f = some tnew ∧
          lookupStr d1 (f ++ ".ccm.bak") = some told ∧
          pyContains patchMarker tnew = true ∧ tnew ≠ told) ∧
    ((⟨1, [], 1, 0⟩ : PatchReport)).patchedFiles = [] ∧
    ((⟨1, [], 1, 0⟩ : PatchReport)).skippedAlreadyPatched
      = ((⟨1, [("1.0", "app.index.js")], 0, 0⟩ : PatchReport)).skippedAlreadyPatched
        + ((⟨1, [("1.0", "app.index.js")], 0, 0⟩ : PatchReport)).patchedFiles.length ∧
    sampleFs1 = sampleFs1 := by
  have hmarkT : pyContains patchMarker (patchedBlockTemplate "req") = true := by
    have h1 := pyContains_marker_patched "" "" "req"
    rw [empty_append_empty] at h1
    exact h1
  have hcl : fileNewTxt sampleMatcher [("app.index.js", sampleBlock)] "app.index.js"
      = some (patchedBlockTemplate "req") := by
    unfold fileNewTxt
    dsimp only
    rw [show fileOld [("app.index.js", sampleBlock)] "app.index.js" = sampleBlock from
      by decide]
    rw [if_neg (by decide : ¬ (pyContains patchMarker sampleBlock = true))]
    rw [show sampleMatcher sampleBlock = some ("", sampleBlock, "") from by
      unfold sampleMatcher
      rw [if_pos rfl]]
    dsimp only
    rw [show patchFetchUsableModelsBlock sampleBlock
        = some (patchedBlockTemplate "req") from by
      unfold patchFetchUsableModelsBlock
      rw [if_neg (by decide), if_neg (by decide)]
      rw [show extractCallArg sampleBlock = some "req" from by decide]]
    dsimp only
    rw [if_neg (fun he => by
      have h1 := pyContains_marker_patched "" "" "req"
      rw [he] at h1
      rw [show pyContains patchMarker sampleBlock = false from by decide] at h1
      simp at h1)]
    rw [empty_append_empty]
  have h1run : patchCursorAgentModels sampleMatcher false sampleFs
      = (⟨1, [("1.0", "app.index.js")], 0, 0⟩, sampleFs1) := by
    unfold patchCursorAgentModels
    rw [show sampleFs.mergeSort (fun a b => decide (a.1 ≤ b.1))
        = [("1.0", [("app.index.js", sampleBlock)])] from
      List.mergeSort_of_sorted (by simp [sampleFs])]
    rw [List.foldl_cons, List.foldl_nil]
    dsimp only
    rw [patchVersionDir_eq_files sampleMatcher false ⟨0, [], 0, 0⟩
      ("1.0", [("app.index.js", sampleBlock)]) ["app.index.js"]
      (by
        unfold dirJsFiles
        rw [show ((([("app.index.js", sampleBlock)] : VDir).map Prod.fst).filter
            (fun n => pyEndsWith n ".index.js")) = ["app.index.js"] from by decide]
        exact List.mergeSort_of_sorted (by simp))]
    dsimp only
    rw [List.foldl_cons, List.foldl_nil]
    rw [patchFileStep_patch sampleMatcher "1.0" "app.index.js" ⟨0, [], 0, 0⟩
      [("app.index.js", sampleBlock)] [("app.index.js", sampleBlock)] rfl
      (patchedBlockTemplate "req") hcl (by decide)]
    rw [show ("app.index.js" ++ ".ccm.bak" : String) = "app.index.js.ccm.bak" from
      by decide]
    rw [show fileOld [("app.index.js", sampleBlock)] "app.index.js" = sampleBlock from
      by decide]
    rw [show assocSet [("app.index.js", sampleBlock)] "app.index.js.ccm.bak" sampleBlock
        = [("app.index.js", sampleBlock), ("app.index.js.ccm.bak", sampleBlock)] from
      by decide]
    rw [show assocSet [("app.index.js", sampleBlock),
          ("app.index.js.ccm.bak", sampleBlock)] "app.index.js"
          (patchedBlockTemplate "req")
        = [("app.index.js", patchedBlockTemplate "req"),
           ("app.index.js.ccm.bak", sampleBlock)] from by
      unfold assocSet
      rw [if_pos (by decide :
        ([("app.index.js", sampleBlock), ("app.index.js.ccm.bak", sampleBlock)].any
          (fun p => p.1 = "app.index.js")) = true)]
      simp only [List.map_cons, List.map_nil]
      simp]
    unfold sampleFs1
    simp
  have hfo1 : fileOld [("app.index.js", patchedBlockTemplate "req"),
      ("app.index.js.ccm.bak", sampleBlock)] "app.index.js"
      = patchedBlockTemplate "req" := by
    unfold fileOld
    rw [lookupStr_cons,
      if_pos (show (("app.index.js", patchedBlockTemplate "req") : String × String).1
        = "app.index.js" from rfl)]
    rfl
  have h2run : patchCursorAgentModels sampleMatcher false sampleFs1
      = (⟨1, [], 1, 0⟩, sampleFs1) := by
    unfold patchCursorAgentModels
    rw [show sampleFs1.mergeSort (fun a b => decide (a.1 ≤ b.1))
        = [("1.0", [("app.index.js", patchedBlockTemplate "req"),
                    ("app.index.js.ccm.bak", sampleBlock)])] from
      List.mergeSort_of_sorted (by simp [sampleFs1])]
    rw [List.foldl_cons, List.foldl_nil]
    dsimp only
    rw [patchVersionDir_eq_files sampleMatcher false ⟨0, [], 0, 0⟩
      ("1.0", [("app.index.js", patchedBlockTemplate "req"),
               ("app.index.js.ccm.bak", sampleBlock)]) ["app.index.js"]
      (by
        unfold dirJsFiles
        rw [show ((([("app.index.js", patchedBlockTemplate "req"),
            ("app.index.js.ccm.bak", sampleBlock)] : VDir).map Prod.fst).filter
            (fun n => pyEndsWith n ".index.js")) = ["app.index.js"] from by decide]
        exact List.mergeSort_of_sorted (by simp))]
    dsimp only
    rw [List.foldl_cons, List.foldl_nil]
    rw [patchFileStep_skip sampleMatcher "1.0" "app.index.js" ⟨0, [], 0, 0⟩
      [("app.index.js", patchedBlockTemplate "req"),
       ("app.index.js.ccm.bak", sampleBlock)]
      [("app.index.js", patchedBlockTemplate "req"),
       ("app.index.js.ccm.bak", sampleBlock)] rfl
      (by
        unfold fileNewTxt
        dsimp only
        rw [hfo1, if_pos hmarkT])]
    rw [hfo1, if_pos hmarkT, if_pos hmarkT]
    unfold sampleFs1
    simp
  exact claim_C5_patch_twice sampleMatcher
    (by
      intro t pre blk post h
      unfold sampleMatcher at h
      by_cases ht : t = sampleBlock
      · rw [if_pos ht] at h
        have h3 := Option.some.inj h
        rw [Prod.mk.injEq, Prod.mk.injEq] at h3
        rw [ht, ← h3.1, ← h3.2.1, ← h3.2.2]
        decide
      · rw [if_neg ht] at h
        simp at h)
    sampleFs (by decide) (by decide)
    ⟨1, [("1.0", "app.index.js")], 0, 0⟩ sampleFs1 h1run
    ⟨1, [], 1, 0⟩ sampleFs1 h2run

end CCM
